import Mathlib

/-!
Verification of the transfer protocol and session-relay layer of the
`simple-file-transfer-project` repository (`scripts/shared.py`,
`scripts/tcp_file_server.py`, `scripts/http_frontend.py`).

The development shallowly embeds the Python source:

* bytes are `Nat` values below 256; byte strings are `List Nat`;
* the framing codec (`pack_length` / `unpack_length` from `shared.py`,
  `send_json` / `recv_json` from `tcp_file_server.py` and
  `http_frontend.py`) works on byte lists;
* control messages are a `Json` inductive mirroring the dictionaries the
  scripts serialize with `json.dumps` (objects of strings, integers,
  booleans, and `None`); `dumpJson` models `json.dumps` with its default
  `ensure_ascii=True` escaping, `parseJsonText` models the subset of
  `json.loads` these messages exercise;
* the filesystem is an association list from paths to byte contents;
* the TCP receiver (`handle_client`) and the relay endpoint handlers
  (`handle_begin`, `handle_chunk`, `handle_end`, `handle_cancel`) are pure
  functions from explicit state plus connection oracles to results.

Loops of the source (`while` loops reading sockets, the rename counter
loop, the JSON scanner) are embedded as fuel-indexed structural
recursions; every theorem that touches them supplies enough fuel and
proves it is enough.
-/

/-! ### Decimal numerals

Models Python's rendering of an `int` (as used by `str.format` in
f-strings and by `json.dumps`) and its parsing (as used by `int(...)`).
-/

/-- Character for a single decimal digit value below ten. -/
def digitChar (d : Nat) : Char := Char.ofNat (48 + d)

/-- Decimal digits of `n`, most significant first.  The first argument is
fuel; `natDigits` below supplies `n + 1`, which is always enough because
each recursive call divides `n` by ten. -/
def natDigitsAux : Nat → Nat → List Char
  | 0, _ => []
  | fuel + 1, n =>
    if n < 10 then [digitChar n]
    else natDigitsAux fuel (n / 10) ++ [digitChar (n % 10)]

/-- Decimal digit string of a natural number, e.g. `1024 ↦ "1024"`. -/
def natDigits (n : Nat) : List Char := natDigitsAux (n + 1) n

/-- Decimal rendering of a natural number as a `String`. -/
def natRepr (n : Nat) : String := ⟨natDigits n⟩

/-- Decimal rendering of a Python integer, with a leading minus sign when
negative, as produced by `str(i)` and by `json.dumps` for `int` values. -/
def intRepr (i : Int) : String :=
  if i < 0 then ⟨'-' :: natDigits i.natAbs⟩ else ⟨natDigits i.natAbs⟩

/-- Numeric value of a decimal digit character. -/
def charDigitVal (c : Char) : Nat := c.toNat - 48

/-- Test for an ASCII decimal digit. -/
def isDigitChar (c : Char) : Bool := 48 ≤ c.toNat ∧ c.toNat ≤ 57

/-- Value of a digit string, most significant first. -/
def digitsVal (ds : List Char) : Nat :=
  ds.foldl (fun acc c => acc * 10 + charDigitVal c) 0

/-- Reads a maximal nonempty run of decimal digits from the front of `s`,
returning its value and the rest; fails when `s` does not start with a
digit. -/
def parseNatPrefixOf (s : List Char) : Option (Nat × List Char) :=
  let ds := s.takeWhile isDigitChar
  if ds.isEmpty then none else some (digitsVal ds, s.drop ds.length)

/-- Parses a complete string as a Python integer literal: an optional
sign followed by decimal digits, nothing else.  Models `int(str)` for the
header strings this program meets (Python additionally strips whitespace
and allows underscore grouping; the strings compared against here never
use either, and a string this parser rejects makes `int` raise
`ValueError` exactly when it has no plain sign-and-digits form). -/
def pyParseInt (s : String) : Option Int :=
  match s.data with
  | [] => none
  | c :: rest =>
    if c = '-' then
      match parseNatPrefixOf rest with
      | some (n, []) => some (-(n : Int))
      | _ => none
    else if c = '+' then
      match parseNatPrefixOf rest with
      | some (n, []) => some ((n : Int))
      | _ => none
    else
      match parseNatPrefixOf (c :: rest) with
      | some (n, []) => some ((n : Int))
      | _ => none

/-! Round-trip facts about decimal numerals. -/

theorem digitChar_isDigit {d : Nat} (h : d < 10) : isDigitChar (digitChar d) = true := by
  interval_cases d <;> decide

theorem charDigitVal_digitChar {d : Nat} (h : d < 10) : charDigitVal (digitChar d) = d := by
  interval_cases d <;> decide

theorem natDigitsAux_eq (fuel n : Nat) (h : n < fuel) :
    natDigitsAux fuel n = if n < 10 then [digitChar n]
      else natDigitsAux (fuel - 1) (n / 10) ++ [digitChar (n % 10)] := by
  match fuel with
  | f + 1 =>
    show (if n < 10 then _ else _) = _
    simp

/-- Fuel does not matter as long as it exceeds the argument. -/
theorem natDigitsAux_fuel (fuel₁ fuel₂ n : Nat) (h₁ : n < fuel₁) (h₂ : n < fuel₂) :
    natDigitsAux fuel₁ n = natDigitsAux fuel₂ n := by
  induction fuel₁ using Nat.strong_induction_on generalizing fuel₂ n with
  | _ f ih =>
    rw [natDigitsAux_eq f n h₁, natDigitsAux_eq fuel₂ n h₂]
    by_cases hn : n < 10
    · simp [hn]
    · simp only [hn, if_false]
      have hd : n / 10 < n := Nat.div_lt_self (by omega) (by omega)
      rw [ih (f - 1) (by omega) (fuel₂ - 1) (n / 10) (by omega) (by omega)]

theorem natDigits_small {n : Nat} (h : n < 10) : natDigits n = [digitChar n] := by
  unfold natDigits
  rw [natDigitsAux_eq _ _ (Nat.lt_succ_self n)]
  simp [h]

theorem natDigits_large {n : Nat} (h : ¬ n < 10) :
    natDigits n = natDigits (n / 10) ++ [digitChar (n % 10)] := by
  unfold natDigits
  rw [natDigitsAux_eq _ _ (Nat.lt_succ_self n)]
  simp only [h, if_false]
  exact congrArg (· ++ _) (natDigitsAux_fuel _ _ _ (by omega) (Nat.lt_succ_self _))

theorem natDigits_ne_nil (n : Nat) : natDigits n ≠ [] := by
  by_cases h : n < 10
  · rw [natDigits_small h]; simp
  · rw [natDigits_large h]; simp

theorem natDigits_all_digits (n : Nat) : ∀ c ∈ natDigits n, isDigitChar c = true := by
  induction n using Nat.strong_induction_on with
  | _ n ih =>
    by_cases h : n < 10
    · rw [natDigits_small h]
      intro c hc
      simp at hc
      subst hc
      exact digitChar_isDigit h
    · rw [natDigits_large h]
      intro c hc
      rcases List.mem_append.mp hc with h1 | h2
      · exact ih (n / 10) (Nat.div_lt_self (by omega) (by omega)) c h1
      · simp at h2
        subst h2
        exact digitChar_isDigit (Nat.mod_lt _ (by omega))

theorem digitsVal_append (xs ys : List Char) :
    digitsVal (xs ++ ys) = ys.foldl (fun acc c => acc * 10 + charDigitVal c) (digitsVal xs) := by
  unfold digitsVal
  rw [List.foldl_append]

theorem digitsVal_natDigits (n : Nat) : digitsVal (natDigits n) = n := by
  induction n using Nat.strong_induction_on with
  | _ n ih =>
    by_cases h : n < 10
    · rw [natDigits_small h]
      simp [digitsVal, charDigitVal_digitChar h]
    · rw [natDigits_large h, digitsVal_append]
      simp [List.foldl, ih (n / 10) (Nat.div_lt_self (by omega) (by omega)),
        charDigitVal_digitChar (Nat.mod_lt n (by omega))]
      omega

theorem takeWhile_all_append {p : Char → Bool} {xs ys : List Char}
    (hxs : ∀ c ∈ xs, p c = true) (hys : ∀ c, ys.head? = some c → p c = false) :
    (xs ++ ys).takeWhile p = xs := by
  induction xs with
  | nil =>
    simp only [List.nil_append]
    cases ys with
    | nil => rfl
    | cons c t =>
      have := hys c rfl
      simp [List.takeWhile, this]
  | cons x t ihx =>
    have hx : p x = true := hxs x (by simp)
    simp only [List.cons_append, List.takeWhile, hx, List.append_eq]
    rw [ihx (fun c hc => hxs c (by simp [hc]))]

/-- Parsing a rendered numeral recovers the number, provided the text that
follows does not begin with another digit. -/
theorem parseNatPrefixOf_natDigits (n : Nat) (rest : List Char)
    (hrest : ∀ c, rest.head? = some c → isDigitChar c = false) :
    parseNatPrefixOf (natDigits n ++ rest) = some (n, rest) := by
  unfold parseNatPrefixOf
  rw [takeWhile_all_append (natDigits_all_digits n) hrest]
  have hne := natDigits_ne_nil n
  simp only [List.isEmpty_iff, hne, if_false, digitsVal_natDigits, List.drop_left]

theorem natDigits_inj {m n : Nat} (h : natDigits m = natDigits n) : m = n := by
  have hm := parseNatPrefixOf_natDigits m [] (by intro c hc; simp at hc)
  have hn := parseNatPrefixOf_natDigits n [] (by intro c hc; simp at hc)
  rw [List.append_nil] at hm hn
  rw [h, hn] at hm
  simpa using hm.symm

/-- Rendering then parsing a natural number is the identity. -/
theorem pyParseInt_natRepr (n : Nat) : pyParseInt (natRepr n) = some (n : Int) := by
  have hd := parseNatPrefixOf_natDigits n [] (by intro c hc; simp at hc)
  rw [List.append_nil] at hd
  unfold pyParseInt natRepr
  have hne := natDigits_ne_nil n
  match hcase : natDigits n with
  | [] => exact absurd hcase hne
  | c :: t =>
    have hc : isDigitChar c = true := natDigits_all_digits n c (by rw [hcase]; simp)
    have hcminus : c ≠ '-' := by intro h; rw [h] at hc; simp [isDigitChar] at hc
    have hcplus : c ≠ '+' := by intro h; rw [h] at hc; simp [isDigitChar] at hc
    rw [hcase] at hd
    simp only [hcase, hcminus, hcplus, if_false, hd]

/-- Rendering then parsing an integer is the identity. -/
theorem pyParseInt_intRepr (i : Int) : pyParseInt (intRepr i) = some i := by
  by_cases hneg : i < 0
  · have hd := parseNatPrefixOf_natDigits i.natAbs [] (by intro c hc; simp at hc)
    rw [List.append_nil] at hd
    unfold intRepr pyParseInt
    simp only [hneg, if_true]
    have hne := natDigits_ne_nil i.natAbs
    match hcase : natDigits i.natAbs with
    | [] => exact absurd hcase hne
    | c :: t =>
      rw [hcase] at hd
      simp only [hcase, if_pos rfl, hd]
      congr 1
      omega
  · unfold intRepr
    simp only [hneg, if_false]
    have : ((i.natAbs : Nat) : Int) = i := by omega
    rw [← this]
    exact pyParseInt_natRepr i.natAbs

/-! ### Length-prefix codec (`shared.pack_length` / `shared.unpack_length`)

Models `struct.pack('!Q', n)` and `struct.unpack('!Q', b)[0]`: eight
bytes, big-endian, unsigned.  `struct.pack` raises for `n` outside
`[0, 2^64)`; every theorem below stays inside that range, where the
Lean function agrees with the Python one. -/

/-- Big-endian base-256 rendering of `n` in exactly `k` bytes. -/
def packBE : Nat → Nat → List Nat
  | 0, _ => []
  | k + 1, n => packBE k (n / 256) ++ [n % 256]

/-- Value of a big-endian byte string. -/
def unpackBE (bs : List Nat) : Nat := bs.foldl (fun acc b => acc * 256 + b) 0

/-- Constant from `shared.py`: the frame length prefix is eight bytes. -/
def HEADER_LEN_SIZE : Nat := 8

/-- Constant from `shared.py`: socket reads are bounded by 64 KiB. -/
def CHUNK_SIZE : Nat := 64 * 1024

/-- Constant from `shared.py`: the configured maximum file size, 2 GiB. -/
def MAX_FILE_SIZE_BYTES : Int := 2 * 1024 * 1024 * 1024

/-- Embedding of `shared.pack_length`. -/
def pack_length (n : Nat) : List Nat := packBE 8 n

/-- Embedding of `shared.unpack_length`. -/
def unpack_length (bs : List Nat) : Nat := unpackBE bs

theorem packBE_length (k n : Nat) : (packBE k n).length = k := by
  induction k generalizing n with
  | zero => rfl
  | succ k ih => simp [packBE, ih]

theorem unpackBE_append (xs ys : List Nat) :
    unpackBE (xs ++ ys) = ys.foldl (fun acc b => acc * 256 + b) (unpackBE xs) := by
  unfold unpackBE
  rw [List.foldl_append]

theorem unpackBE_packBE (k n : Nat) (h : n < 256 ^ k) : unpackBE (packBE k n) = n := by
  induction k generalizing n with
  | zero =>
    simp [pow_zero] at h
    simp [packBE, unpackBE, h]
  | succ k ih =>
    have hdiv : n / 256 < 256 ^ k := by
      rw [Nat.div_lt_iff_lt_mul (by omega)]
      calc n < 256 ^ (k + 1) := h
        _ = 256 ^ k * 256 := by rw [pow_succ]
    simp only [packBE, unpackBE_append, List.foldl]
    rw [ih _ hdiv]
    omega

/-- Packing then unpacking an in-range length is the identity — the codec
fact behind every frame exchanged by the programs. -/
theorem unpack_length_pack_length (n : Nat) (h : n < 2 ^ 64) :
    unpack_length (pack_length n) = n := by
  have : (2 : Nat) ^ 64 = 256 ^ 8 := by norm_num
  exact unpackBE_packBE 8 n (by omega)

theorem pack_length_length (n : Nat) : (pack_length n).length = 8 := packBE_length 8 n

/-! ### Control messages as JSON

The scripts exchange dictionaries of strings, integers, booleans and
`None` (plus nested dictionaries in principle), serialized with
`json.dumps(data)` under its defaults and parsed with `json.loads`.
`Json` is the value space of those messages; an object is an ordered
field list, mirroring both the insertion order `json.dumps` serializes
and the dictionary `json.loads` rebuilds (for a duplicated key the
rebuilt dictionary keeps the last occurrence, which is what `jmemGet`
below returns).  JSON arrays and floats never occur in any message of
these programs and are not modelled; text a message could not produce
simply fails to parse. -/

mutual

inductive Json where
  | str (s : String)
  | int (n : Int)
  | bool (b : Bool)
  | null
  | obj (fields : JMembers)

inductive JMembers where
  | nil
  | cons (key : String) (value : Json) (rest : JMembers)

end

/-- Last value stored under `key`, as `dict.get` sees it after
`json.loads` has folded duplicate keys (last occurrence wins). -/
def jmemGet : JMembers → String → Option Json
  | .nil, _ => none
  | .cons k v rest, key =>
    match jmemGet rest key with
    | some r => some r
    | none => if k = key then some v else none

/-- Field access `message.get(key)` on an object; `none` on a non-object
(where Python would raise `AttributeError` — callers model that
explicitly). -/
def jsonGet (j : Json) (key : String) : Option Json :=
  match j with
  | .obj fields => jmemGet fields key
  | _ => none

/-- Opening brace character, written numerically. -/
def lbraceChar : Char := Char.ofNat 123

/-- Closing brace character, written numerically. -/
def rbraceChar : Char := Char.ofNat 125

/-- Lowercase hexadecimal digit character for a value below sixteen. -/
def hexDigitChar (d : Nat) : Char :=
  Char.ofNat (if d < 10 then 48 + d else 87 + d)

/-- Numeric value of a hexadecimal digit character, either case. -/
def hexDigitVal (c : Char) : Option Nat :=
  if 48 ≤ c.toNat ∧ c.toNat ≤ 57 then some (c.toNat - 48)
  else if 97 ≤ c.toNat ∧ c.toNat ≤ 102 then some (c.toNat - 87)
  else if 65 ≤ c.toNat ∧ c.toNat ≤ 70 then some (c.toNat - 55)
  else none

/-- Four lowercase hex digits of a code point below `0x10000`, as in the
`\uXXXX` escapes `json.dumps` emits under `ensure_ascii=True`. -/
def hex4 (n : Nat) : List Char :=
  [hexDigitChar (n / 4096 % 16), hexDigitChar (n / 256 % 16),
   hexDigitChar (n / 16 % 16), hexDigitChar (n % 16)]

/-- Escape of one character exactly as `json.dumps` renders it with
`ensure_ascii=True`: quote and backslash get two-character escapes, the
five named control characters get theirs, every other control character
and every character above `0x7e` becomes `\uXXXX`, an astral character a
surrogate pair. -/
def escapeChar (c : Char) : List Char :=
  if c = '"' then ['\\', '"']
  else if c = '\\' then ['\\', '\\']
  else if c = '\n' then ['\\', 'n']
  else if c = '\r' then ['\\', 'r']
  else if c = '\t' then ['\\', 't']
  else if c.toNat = 8 then ['\\', 'b']
  else if c.toNat = 12 then ['\\', 'f']
  else if c.toNat < 32 then '\\' :: 'u' :: hex4 c.toNat
  else if c.toNat ≤ 126 then [c]
  else if c.toNat ≤ 65535 then '\\' :: 'u' :: hex4 c.toNat
  else
    ('\\' :: 'u' :: hex4 (55296 + (c.toNat - 65536) / 1024)) ++
      ('\\' :: 'u' :: hex4 (56320 + (c.toNat - 65536) % 1024))

/-- Escape of a character sequence. -/
def escapeString : List Char → List Char
  | [] => []
  | c :: rest => escapeChar c ++ escapeString rest

/-- Serialization of a string literal: quote, escaped body, quote. -/
def dumpJString (s : String) : List Char := '"' :: escapeString s.data ++ ['"']

/-- Separator `json.dumps` places after a non-final object member (its
default item separator is a comma and a space). -/
def jmemSep : JMembers → List Char
  | .nil => []
  | .cons _ _ _ => [',', ' ']

mutual

/-- Embedding of `json.dumps(data)` under its defaults (`ensure_ascii`
on, separators `", "` and `": "`, no indent), as a character list. -/
def dumpJson : Json → List Char
  | .str s => dumpJString s
  | .int n => (intRepr n).data
  | .bool true => ['t', 'r', 'u', 'e']
  | .bool false => ['f', 'a', 'l', 's', 'e']
  | .null => ['n', 'u', 'l', 'l']
  | .obj fields => lbraceChar :: dumpJMembers fields ++ [rbraceChar]

/-- Serialization of the member list of an object, without the braces. -/
def dumpJMembers : JMembers → List Char
  | .nil => []
  | .cons k v rest =>
    dumpJString k ++ ':' :: ' ' :: (dumpJson v ++ jmemSep rest ++ dumpJMembers rest)

end

mutual

/-- Structural size of a value; a lower bound for the parser fuel. -/
def jsizeJ : Json → Nat
  | .obj fields => 1 + jsizeM fields
  | _ => 1

/-- Structural size of a member list. -/
def jsizeM : JMembers → Nat
  | .nil => 0
  | .cons _ v rest => 1 + jsizeJ v + jsizeM rest

end

/-! ### JSON parsing

Models the subset of `json.loads` the control messages exercise: strings
with all escape forms (including surrogate pairs), integers, the three
literals, and objects, with arbitrary interleaved whitespace.  Floats and
arrays, which no message of these programs contains, fail to parse.  One
representational divergence: Python keeps a lone surrogate escape as a
surrogate code unit inside `str`, which a Lean `Char` cannot carry;
`Char.ofNat` maps it to the null character instead.  No frame the
programs emit contains a lone surrogate, so every theorem stays away from
that corner.  Recursions take explicit fuel; the entry point supplies the
input length plus one, which the round-trip proofs show is enough. -/

/-- JSON whitespace. -/
def isJsonWs (c : Char) : Bool := c = ' ' ∨ c = '\t' ∨ c = '\n' ∨ c = '\r'

/-- Drops leading JSON whitespace. -/
def skipWs (s : List Char) : List Char := s.dropWhile isJsonWs

/-- Value of four hex digit characters. -/
def hexQuad (h1 h2 h3 h4 : Char) : Option Nat :=
  match hexDigitVal h1, hexDigitVal h2, hexDigitVal h3, hexDigitVal h4 with
  | some a, some b, some c, some d => some (a * 4096 + b * 256 + c * 16 + d)
  | _, _, _, _ => none

/-- Decodes one `\uXXXX` escape positioned right after its `\u`,
combining a high surrogate with an immediately following `\uXXXX` low
surrogate the way CPython's scanner does; a high surrogate not followed
by a low one is kept alone (where Python retains a surrogate code unit
that a Lean `Char` cannot carry, `Char.ofNat` yields the null
character — a corner no frame of these programs reaches). -/
def decodeUEscape (t2 : List Char) : Option (Char × List Char) :=
  match t2 with
  | h1 :: h2 :: h3 :: h4 :: t3 =>
    match hexQuad h1 h2 h3 h4 with
    | none => none
    | some cp =>
      if 55296 ≤ cp ∧ cp ≤ 56319 then
        match t3 with
        | b1 :: b2 :: k1 :: k2 :: k3 :: k4 :: t4 =>
          if b1 = '\\' ∧ b2 = 'u' then
            match hexQuad k1 k2 k3 k4 with
            | some lo =>
              if 56320 ≤ lo ∧ lo ≤ 57343 then
                some (Char.ofNat (65536 + (cp - 55296) * 1024 + (lo - 56320)), t4)
              else some (Char.ofNat cp, t3)
            | none => some (Char.ofNat cp, t3)
          else some (Char.ofNat cp, t3)
        | _ => some (Char.ofNat cp, t3)
      else some (Char.ofNat cp, t3)
  | _ => none

/-- Scans a string body after its opening quote, unescaping as
`json.loads` does (strict mode: raw control characters are rejected);
returns the accumulated characters and the input after the closing
quote.  `acc` is kept reversed.  Fuel bounds the number of steps; one
unit per consumed escape or character suffices. -/
def scanString : Nat → List Char → List Char → Option (List Char × List Char)
  | 0, _, _ => none
  | fuel + 1, acc, s =>
    match s with
    | [] => none
    | c :: t =>
      if c = '"' then some (acc.reverse, t)
      else if c = '\\' then
        match t with
        | [] => none
        | e :: t2 =>
          if e = '"' then scanString fuel ('"' :: acc) t2
          else if e = '\\' then scanString fuel ('\\' :: acc) t2
          else if e = '/' then scanString fuel ('/' :: acc) t2
          else if e = 'b' then scanString fuel (Char.ofNat 8 :: acc) t2
          else if e = 'f' then scanString fuel (Char.ofNat 12 :: acc) t2
          else if e = 'n' then scanString fuel ('\n' :: acc) t2
          else if e = 'r' then scanString fuel ('\r' :: acc) t2
          else if e = 't' then scanString fuel ('\t' :: acc) t2
          else if e = 'u' then
            match decodeUEscape t2 with
            | some (ch, t3) => scanString fuel (ch :: acc) t3
            | none => none
          else none
      else if c.toNat < 32 then none
      else scanString fuel (c :: acc) t

mutual

/-- Parses one JSON value, returning it and the unconsumed input.  Fuel
bounds object nesting and member counts; `jsizeJ` of the value suffices. -/
def parseVal : Nat → List Char → Option (Json × List Char)
  | 0, _ => none
  | fuel + 1, s0 =>
    match skipWs s0 with
    | [] => none
    | c :: t =>
      if c = '"' then
        match scanString (t.length + 1) [] t with
        | some (cs, r) => some (.str ⟨cs⟩, r)
        | none => none
      else if c = 't' then
        match t with
        | 'r' :: 'u' :: 'e' :: r => some (.bool true, r)
        | _ => none
      else if c = 'f' then
        match t with
        | 'a' :: 'l' :: 's' :: 'e' :: r => some (.bool false, r)
        | _ => none
      else if c = 'n' then
        match t with
        | 'u' :: 'l' :: 'l' :: r => some (.null, r)
        | _ => none
      else if c = '-' then
        match parseNatPrefixOf t with
        | some (n, r) => some (.int (-(n : Int)), r)
        | none => none
      else if isDigitChar c then
        match parseNatPrefixOf (c :: t) with
        | some (n, r) => some (.int (n : Int), r)
        | none => none
      else if c = lbraceChar then
        match skipWs t with
        | [] => none
        | d :: t2 =>
          if d = rbraceChar then some (.obj .nil, t2)
          else parseMembers fuel (d :: t2)
      else none

/-- Parses the members of an object (positioned at the first key's
quote), through the closing brace. -/
def parseMembers : Nat → List Char → Option (Json × List Char)
  | 0, _ => none
  | fuel + 1, s =>
    match s with
    | [] => none
    | c :: t =>
      if c = '"' then
        match scanString (t.length + 1) [] t with
        | none => none
        | some (key, r1) =>
          match skipWs r1 with
          | [] => none
          | d :: r2 =>
            if d = ':' then
              match parseVal fuel r2 with
              | none => none
              | some (v, r3) =>
                match skipWs r3 with
                | [] => none
                | e :: r4 =>
                  if e = ',' then
                    match parseMembers fuel (skipWs r4) with
                    | some (.obj rest, r5) => some (.obj (.cons ⟨key⟩ v rest), r5)
                    | _ => none
                  else if e = rbraceChar then some (.obj (.cons ⟨key⟩ v .nil), r4)
                  else none
            else none
      else none

end

/-- Embedding of `json.loads` on a complete text: one value, possibly
surrounded by whitespace, nothing else. -/
def parseJsonText (cs : List Char) : Option Json :=
  match parseVal (cs.length + 1) cs with
  | some (j, r) => if skipWs r = [] then some j else none
  | none => none

/-! ### Round trip of the string escaper and scanner -/

theorem hexDigitVal_hexDigitChar {d : Nat} (h : d < 16) :
    hexDigitVal (hexDigitChar d) = some d := by
  interval_cases d <;> decide

theorem hexQuad_hex4 {n : Nat} (h : n < 65536) :
    hexQuad (hexDigitChar (n / 4096 % 16)) (hexDigitChar (n / 256 % 16))
      (hexDigitChar (n / 16 % 16)) (hexDigitChar (n % 16)) = some n := by
  unfold hexQuad
  rw [hexDigitVal_hexDigitChar (by omega), hexDigitVal_hexDigitChar (by omega),
    hexDigitVal_hexDigitChar (by omega), hexDigitVal_hexDigitChar (by omega)]
  show some (n / 4096 % 16 * 4096 + n / 256 % 16 * 256 + n / 16 % 16 * 16 + n % 16) = some n
  exact congrArg some (by omega)

theorem char_valid_ranges (c : Char) :
    c.toNat < 55296 ∨ (57344 ≤ c.toNat ∧ c.toNat < 1114112) := c.valid

theorem decodeUEscape_quad (h1 h2 h3 h4 : Char) {cp : Nat}
    (hq : hexQuad h1 h2 h3 h4 = some cp) (hns : ¬ (55296 ≤ cp ∧ cp ≤ 56319))
    (t3 : List Char) :
    decodeUEscape (h1 :: h2 :: h3 :: h4 :: t3) = some (Char.ofNat cp, t3) := by
  simp [decodeUEscape, hq, hns]

theorem decodeUEscape_pair (h1 h2 h3 h4 k1 k2 k3 k4 : Char) {cp lo : Nat}
    (hqh : hexQuad h1 h2 h3 h4 = some cp) (hql : hexQuad k1 k2 k3 k4 = some lo)
    (hcp : 55296 ≤ cp ∧ cp ≤ 56319) (hlo : 56320 ≤ lo ∧ lo ≤ 57343) (t4 : List Char) :
    decodeUEscape (h1 :: h2 :: h3 :: h4 :: '\\' :: 'u' :: k1 :: k2 :: k3 :: k4 :: t4) =
      some (Char.ofNat (65536 + (cp - 55296) * 1024 + (lo - 56320)), t4) := by
  simp [decodeUEscape, hqh, hql, hcp, hlo]

theorem decodeUEscape_bmp {cp : Nat} (h : cp < 65536)
    (hns : ¬ (55296 ≤ cp ∧ cp ≤ 56319)) (rest : List Char) :
    decodeUEscape (hex4 cp ++ rest) = some (Char.ofNat cp, rest) :=
  decodeUEscape_quad _ _ _ _ (hexQuad_hex4 h) hns rest

theorem decodeUEscape_astral {s0 : Nat} (h : s0 < 1048576) (rest : List Char) :
    decodeUEscape (hex4 (55296 + s0 / 1024) ++ '\\' :: 'u' :: (hex4 (56320 + s0 % 1024) ++ rest)) =
      some (Char.ofNat (65536 + s0), rest) := by
  have hhi : 55296 + s0 / 1024 < 65536 := by omega
  have hlo : 56320 + s0 % 1024 < 65536 := by
    have := Nat.mod_lt s0 (show 0 < 1024 by omega)
    omega
  have hs : 55296 ≤ 55296 + s0 / 1024 ∧ 55296 + s0 / 1024 ≤ 56319 := by
    have : s0 / 1024 < 1024 := Nat.div_lt_of_lt_mul (by omega)
    omega
  have hl : 56320 ≤ 56320 + s0 % 1024 ∧ 56320 + s0 % 1024 ≤ 57343 := by
    have := Nat.mod_lt s0 (show 0 < 1024 by omega)
    omega
  have key : decodeUEscape
      (hex4 (55296 + s0 / 1024) ++ '\\' :: 'u' :: (hex4 (56320 + s0 % 1024) ++ rest)) =
      some (Char.ofNat (65536 + (55296 + s0 / 1024 - 55296) * 1024 +
        (56320 + s0 % 1024 - 56320)), rest) :=
    decodeUEscape_pair _ _ _ _ _ _ _ _ (hexQuad_hex4 hhi) (hexQuad_hex4 hlo) hs hl rest
  rw [key]
  have e : 65536 + (55296 + s0 / 1024 - 55296) * 1024 + (56320 + s0 % 1024 - 56320) =
      65536 + s0 := by
    have := Nat.div_add_mod s0 1024
    omega
  rw [e]

/-- One scanner step undoes one character's escape: whatever form
`escapeChar` chose, the scanner consumes it whole, pushes back exactly
`c`, and spends one unit of fuel. -/
theorem scanString_escapeChar (c : Char) (fuel : Nat) (acc s : List Char) :
    scanString (fuel + 1) acc (escapeChar c ++ s) = scanString fuel (c :: acc) s := by
  by_cases h1 : c = '"'
  · subst h1; simp [escapeChar, scanString]
  by_cases h2 : c = '\\'
  · subst h2; simp [escapeChar, scanString]
  by_cases h3 : c = '\n'
  · subst h3; simp [escapeChar, scanString]
  by_cases h4 : c = '\r'
  · subst h4; simp [escapeChar, scanString]
  by_cases h5 : c = '\t'
  · subst h5; simp [escapeChar, scanString]
  by_cases h6 : c.toNat = 8
  · have hc : Char.ofNat 8 = c := by rw [← h6]; exact Char.ofNat_toNat c
    simp [escapeChar, h1, h2, h3, h4, h5, h6, scanString]
    rw [hc]
  by_cases h7 : c.toNat = 12
  · have hc : Char.ofNat 12 = c := by rw [← h7]; exact Char.ofNat_toNat c
    simp [escapeChar, h1, h2, h3, h4, h5, h6, h7, scanString]
    rw [hc]
  by_cases h8 : c.toNat < 32
  · have hns : ¬ (55296 ≤ c.toNat ∧ c.toNat ≤ 56319) := by omega
    have hd := decodeUEscape_bmp (show c.toNat < 65536 by omega) hns s
    simp [escapeChar, h1, h2, h3, h4, h5, h6, h7, h8, scanString, hd, Char.ofNat_toNat]
  by_cases h9 : c.toNat ≤ 126
  · simp [escapeChar, h1, h2, h3, h4, h5, h6, h7, h8, h9, scanString]
  by_cases h10 : c.toNat ≤ 65535
  · have hns : ¬ (55296 ≤ c.toNat ∧ c.toNat ≤ 56319) := by
      rcases char_valid_ranges c with h | h <;> omega
    have hd := decodeUEscape_bmp (show c.toNat < 65536 by omega) hns s
    simp [escapeChar, h1, h2, h3, h4, h5, h6, h7, h8, h9, h10, scanString, hd,
      Char.ofNat_toNat]
  · have hv := char_valid_ranges c
    have hs0 : c.toNat - 65536 < 1048576 := by omega
    have hd := decodeUEscape_astral hs0 s
    have hc : 65536 + (c.toNat - 65536) = c.toNat := by omega
    rw [hc] at hd
    simp [escapeChar, h1, h2, h3, h4, h5, h6, h7, h8, h9, h10, scanString, hd,
      Char.ofNat_toNat]

theorem escapeChar_length_pos (c : Char) : 1 ≤ (escapeChar c).length := by
  unfold escapeChar
  repeat' split
  all_goals simp [hex4]

theorem escapeString_length_ge (s : List Char) : s.length ≤ (escapeString s).length := by
  induction s with
  | nil => simp [escapeString]
  | cons c t ih =>
    simp only [escapeString, List.length_append, List.length_cons]
    have := escapeChar_length_pos c
    omega

/-- The scanner undoes the escaper: fed an escaped body, a closing quote
and arbitrary trailing input, with fuel exceeding the body's character
count, it returns exactly the original characters. -/
theorem scanString_escapeString (s : List Char) : ∀ (fuel : Nat) (acc rest : List Char),
    s.length < fuel →
    scanString fuel acc (escapeString s ++ '"' :: rest) = some (acc.reverse ++ s, rest) := by
  induction s with
  | nil =>
    intro fuel acc rest hfuel
    match fuel, hfuel with
    | f + 1, _ => simp [escapeString, scanString]
  | cons c t ih =>
    intro fuel acc rest hfuel
    match fuel, hfuel with
    | f + 1, hfuel =>
      have hstep := scanString_escapeChar c f acc (escapeString t ++ '"' :: rest)
      calc scanString (f + 1) acc (escapeString (c :: t) ++ '"' :: rest)
          = scanString (f + 1) acc (escapeChar c ++ (escapeString t ++ '"' :: rest)) := by
            simp [escapeString]
        _ = scanString f (c :: acc) (escapeString t ++ '"' :: rest) := hstep
        _ = some ((c :: acc).reverse ++ t, rest) := ih f (c :: acc) rest (by
            simp at hfuel; omega)
        _ = some (acc.reverse ++ c :: t, rest) := by simp

/-! ### ASCII bounds of serialized output

Under `ensure_ascii=True` every character `json.dumps` emits is ASCII, so
the UTF-8 body of a frame is one byte per character.  These lemmas make
that precise. -/

/-- Every character of the list is ASCII. -/
def allAscii (cs : List Char) : Prop := ∀ c ∈ cs, c.toNat < 128

theorem isDigitChar_ascii {c : Char} (h : isDigitChar c = true) : c.toNat < 128 := by
  simp [isDigitChar] at h
  omega

theorem hexDigitChar_ascii {d : Nat} (h : d < 16) : (hexDigitChar d).toNat < 128 := by
  interval_cases d <;> decide

theorem hex4_ascii (n : Nat) : allAscii (hex4 n) := by
  intro c hc
  simp [hex4] at hc
  rcases hc with h | h | h | h <;>
    (subst h; exact hexDigitChar_ascii (Nat.mod_lt _ (by omega)))

theorem escapeChar_ascii (c : Char) : allAscii (escapeChar c) := by
  intro x hx
  unfold escapeChar at hx
  by_cases h1 : c = '"'
  · simp [h1] at hx; rcases hx with h | h <;> (subst h; decide)
  by_cases h2 : c = '\\'
  · simp [h1, h2] at hx; subst hx; decide
  by_cases h3 : c = '\n'
  · simp [h1, h2, h3] at hx; rcases hx with h | h <;> (subst h; decide)
  by_cases h4 : c = '\r'
  · simp [h1, h2, h3, h4] at hx; rcases hx with h | h <;> (subst h; decide)
  by_cases h5 : c = '\t'
  · simp [h1, h2, h3, h4, h5] at hx; rcases hx with h | h <;> (subst h; decide)
  by_cases h6 : c.toNat = 8
  · simp [h1, h2, h3, h4, h5, h6] at hx; rcases hx with h | h <;> (subst h; decide)
  by_cases h7 : c.toNat = 12
  · simp [h1, h2, h3, h4, h5, h6, h7] at hx; rcases hx with h | h <;> (subst h; decide)
  by_cases h8 : c.toNat < 32
  · simp [h1, h2, h3, h4, h5, h6, h7, h8] at hx
    rcases hx with h | h | h
    · subst h; decide
    · subst h; decide
    · exact hex4_ascii _ x h
  by_cases h9 : c.toNat ≤ 126
  · simp [h1, h2, h3, h4, h5, h6, h7, h8, h9] at hx
    subst hx; omega
  by_cases h10 : c.toNat ≤ 65535
  · simp [h1, h2, h3, h4, h5, h6, h7, h8, h9, h10] at hx
    rcases hx with h | h | h
    · subst h; decide
    · subst h; decide
    · exact hex4_ascii _ x h
  · simp [h1, h2, h3, h4, h5, h6, h7, h8, h9, h10] at hx
    rcases hx with h | h | h | h | h | h
    · subst h; decide
    · subst h; decide
    · exact hex4_ascii _ x h
    · subst h; decide
    · subst h; decide
    · exact hex4_ascii _ x h

theorem escapeString_ascii (s : List Char) : allAscii (escapeString s) := by
  induction s with
  | nil => intro c hc; simp [escapeString] at hc
  | cons c t ih =>
    intro x hx
    simp only [escapeString] at hx
    rcases List.mem_append.mp hx with h | h
    · exact escapeChar_ascii c x h
    · exact ih x h

theorem dumpJString_ascii (s : String) : allAscii (dumpJString s) := by
  intro x hx
  simp only [dumpJString] at hx
  rcases List.mem_cons.mp hx with h | h
  · subst h; decide
  rcases List.mem_append.mp h with h | h
  · exact escapeString_ascii _ x h
  · simp at h; subst h; decide

theorem natDigits_ascii (n : Nat) : allAscii (natDigits n) :=
  fun c hc => isDigitChar_ascii (natDigits_all_digits n c hc)

theorem intRepr_ascii (i : Int) : allAscii (intRepr i).data := by
  intro c hc
  unfold intRepr at hc
  by_cases h : i < 0
  · simp only [h, if_true] at hc
    rcases List.mem_cons.mp hc with h1 | h1
    · subst h1; decide
    · exact natDigits_ascii _ c h1
  · simp only [h, if_false] at hc
    exact natDigits_ascii _ c hc

mutual

theorem dumpJson_ascii (j : Json) : allAscii (dumpJson j) := by
  cases j with
  | str s => exact dumpJString_ascii s
  | int n => exact intRepr_ascii n
  | bool b =>
    cases b with
    | true =>
      intro c hc
      simp [dumpJson] at hc
      rcases hc with h | h | h | h <;> (subst h; decide)
    | false =>
      intro c hc
      simp [dumpJson] at hc
      rcases hc with h | h | h | h | h <;> (subst h; decide)
  | null =>
    intro c hc
    simp [dumpJson] at hc
    rcases hc with h | h | h <;> (subst h; decide)
  | obj fields =>
    intro c hc
    simp only [dumpJson] at hc
    rcases List.mem_cons.mp hc with h | h
    · subst h; decide
    rcases List.mem_append.mp h with h | h
    · exact dumpJMembers_ascii fields c h
    · simp at h; subst h; decide

theorem dumpJMembers_ascii (fields : JMembers) : allAscii (dumpJMembers fields) := by
  cases fields with
  | nil => intro c hc; simp [dumpJMembers] at hc
  | cons k v rest =>
    intro c hc
    simp only [dumpJMembers] at hc
    rcases List.mem_append.mp hc with h | h
    · exact dumpJString_ascii k c h
    rcases List.mem_cons.mp h with h | h
    · subst h; decide
    rcases List.mem_cons.mp h with h | h
    · subst h; decide
    rcases List.mem_append.mp h with h | h
    · rcases List.mem_append.mp h with h | h
      · exact dumpJson_ascii v c h
      · cases rest with
        | nil => simp [jmemSep] at h
        | cons k2 v2 r2 =>
          simp [jmemSep] at h
          rcases h with h | h <;> (subst h; decide)
    · exact dumpJMembers_ascii rest c h

end

/-! ### Parser recovers serializer output -/

theorem skipWs_cons_not_ws {c : Char} (t : List Char) (h : isJsonWs c = false) :
    skipWs (c :: t) = c :: t := by
  simp [skipWs, List.dropWhile_cons, h]

theorem skipWs_cons_ws {c : Char} (t : List Char) (h : isJsonWs c = true) :
    skipWs (c :: t) = skipWs t := by
  simp [skipWs, List.dropWhile_cons, h]

theorem parseVal_ws_cons {c : Char} (fuel : Nat) (t : List Char) (h : isJsonWs c = true) :
    parseVal fuel (c :: t) = parseVal fuel t := by
  match fuel with
  | 0 => rfl
  | f + 1 =>
    simp only [parseVal]
    rw [skipWs_cons_ws t h]

theorem digit_not_ws {c : Char} (h : isDigitChar c = true) : isJsonWs c = false := by
  simp only [isDigitChar, decide_eq_true_eq] at h
  have h1 : c ≠ ' ' := by intro he; subst he; revert h; decide
  have h2 : c ≠ '\t' := by intro he; subst he; revert h; decide
  have h3 : c ≠ '\n' := by intro he; subst he; revert h; decide
  have h4 : c ≠ '\r' := by intro he; subst he; revert h; decide
  simp [isJsonWs, h1, h2, h3, h4]

theorem digit_ne {c x : Char} (h : isDigitChar c = true) (hx : isDigitChar x = false) :
    c ≠ x := by
  intro he
  subst he
  rw [h] at hx
  cases hx

/-- Heads of rendered naturals. -/
theorem natDigits_head (n : Nat) :
    ∃ d t, natDigits n = d :: t ∧ isDigitChar d = true := by
  match hcase : natDigits n with
  | [] => exact absurd hcase (natDigits_ne_nil n)
  | d :: t =>
    exact ⟨d, t, rfl, natDigits_all_digits n d (by rw [hcase]; simp)⟩

theorem skipWs_dumpJson (j : Json) (rest : List Char) :
    skipWs (dumpJson j ++ rest) = dumpJson j ++ rest := by
  cases j with
  | str s => exact skipWs_cons_not_ws _ (by decide)
  | int n =>
    by_cases hn : n < 0
    · have : dumpJson (.int n) = '-' :: natDigits n.natAbs := by
        simp [dumpJson, intRepr, hn]
      rw [this]
      exact skipWs_cons_not_ws _ (by decide)
    · have : dumpJson (.int n) = natDigits n.natAbs := by
        simp [dumpJson, intRepr, hn]
      obtain ⟨d, t, hd, hdig⟩ := natDigits_head n.natAbs
      rw [this, hd]
      exact skipWs_cons_not_ws _ (digit_not_ws hdig)
  | bool b => cases b <;> exact skipWs_cons_not_ws _ (by decide)
  | null => exact skipWs_cons_not_ws _ (by decide)
  | obj fields => exact skipWs_cons_not_ws _ (by decide)

theorem skipWs_dumpJMembers_cons (k : String) (v : Json) (tail : JMembers)
    (rest : List Char) :
    skipWs (dumpJMembers (.cons k v tail) ++ rest) =
      dumpJMembers (.cons k v tail) ++ rest := by
  have hshape : dumpJMembers (.cons k v tail) ++ rest =
      '"' :: (escapeString k.data ++ ('"' :: ':' :: ' ' ::
        (dumpJson v ++ (jmemSep tail ++ (dumpJMembers tail ++ rest))))) := by
    simp [dumpJMembers, dumpJString]
  rw [hshape]
  exact skipWs_cons_not_ws _ (by decide)

/-- Absence of a leading digit in the trailing input, the one boundary
condition the numeral parser needs. -/
def nonDigitHead (rest : List Char) : Prop :=
  ∀ c, rest.head? = some c → isDigitChar c = false

theorem jsizeJ_pos (j : Json) : 1 ≤ jsizeJ j := by cases j <;> simp [jsizeJ]

theorem lbrace_ne_q : lbraceChar ≠ '"' := by decide

theorem lbrace_ne_t : lbraceChar ≠ 't' := by decide

theorem lbrace_ne_f : lbraceChar ≠ 'f' := by decide

theorem lbrace_ne_n : lbraceChar ≠ 'n' := by decide

theorem lbrace_ne_minus : lbraceChar ≠ '-' := by decide

theorem lbrace_not_digit : isDigitChar lbraceChar = false := by decide

theorem lbrace_not_ws : isJsonWs lbraceChar = false := by decide

theorem rbrace_not_ws : isJsonWs rbraceChar = false := by decide

theorem rbrace_ne_comma : rbraceChar ≠ ',' := by decide

theorem rbrace_not_digit : isDigitChar rbraceChar = false := by decide

theorem quote_ne_rbrace : ('"' : Char) ≠ rbraceChar := by decide

/-- Round trip of one serialized value (and of serialized member lists),
by induction on the parser fuel: parsing the serialization of `j`
followed by any non-digit-led trailing input consumes exactly the
serialization and returns `j`. -/
theorem parseVal_dumpJson_main : ∀ fuel : Nat,
    (∀ j rest, jsizeJ j ≤ fuel → nonDigitHead rest →
      parseVal fuel (dumpJson j ++ rest) = some (j, rest)) ∧
    (∀ k v tail rest, jsizeM (.cons k v tail) ≤ fuel →
      parseMembers fuel (dumpJMembers (.cons k v tail) ++ rbraceChar :: rest) =
        some (.obj (.cons k v tail), rest)) := by
  intro fuel
  induction fuel with
  | zero =>
    constructor
    · intro j rest hsize _
      exact absurd hsize (by have := jsizeJ_pos j; omega)
    · intro k v tail rest hsize
      exact absurd hsize (by simp only [jsizeM]; omega)
  | succ f ih =>
    constructor
    · intro j rest hsize hrest
      cases j with
      | str s =>
        have hshape : dumpJson (.str s) ++ rest =
            '"' :: (escapeString s.data ++ '"' :: rest) := by
          simp [dumpJson, dumpJString]
        rw [hshape]
        have hscan := scanString_escapeString s.data
          ((escapeString s.data ++ '"' :: rest).length + 1) [] rest
          (by rw [List.length_append, List.length_cons]
              have := escapeString_length_ge s.data
              omega)
        simp at hscan
        simp [parseVal, skipWs_cons_not_ws _ (show isJsonWs '"' = false by decide), hscan]
      | int n =>
        by_cases hn : n < 0
        · have hshape : dumpJson (.int n) ++ rest =
              '-' :: (natDigits n.natAbs ++ rest) := by
            simp [dumpJson, intRepr, hn]
          rw [hshape]
          have hparse := parseNatPrefixOf_natDigits n.natAbs rest hrest
          simp [parseVal, skipWs_cons_not_ws _ (show isJsonWs '-' = false by decide), hparse]
          rw [abs_of_neg hn, neg_neg]
        · obtain ⟨d, t, hd, hdig⟩ := natDigits_head n.natAbs
          have hshape : dumpJson (.int n) ++ rest = d :: (t ++ rest) := by
            simp [dumpJson, intRepr, hn, hd]
          have hback : d :: (t ++ rest) = natDigits n.natAbs ++ rest := by
            rw [hd]; simp
          have hparse := parseNatPrefixOf_natDigits n.natAbs rest hrest
          rw [hshape]
          simp only [parseVal, skipWs_cons_not_ws _ (digit_not_ws hdig)]
          rw [if_neg (digit_ne hdig (by decide)), if_neg (digit_ne hdig (by decide)),
            if_neg (digit_ne hdig (by decide)), if_neg (digit_ne hdig (by decide)),
            if_neg (digit_ne hdig (by decide)), if_pos hdig, hback, hparse]
          have he : ((n.natAbs : Int)) = n := by omega
          show some (Json.int ((n.natAbs : Nat) : Int), rest) = some (Json.int n, rest)
          rw [he]
      | bool b =>
        cases b with
        | true =>
          have hshape : dumpJson (.bool true) ++ rest =
              't' :: 'r' :: 'u' :: 'e' :: rest := by simp [dumpJson]
          rw [hshape]
          simp [parseVal, skipWs_cons_not_ws _ (show isJsonWs 't' = false by decide)]
        | false =>
          have hshape : dumpJson (.bool false) ++ rest =
              'f' :: 'a' :: 'l' :: 's' :: 'e' :: rest := by simp [dumpJson]
          rw [hshape]
          simp [parseVal, skipWs_cons_not_ws _ (show isJsonWs 'f' = false by decide)]
      | null =>
        have hshape : dumpJson .null ++ rest = 'n' :: 'u' :: 'l' :: 'l' :: rest := by
          simp [dumpJson]
        rw [hshape]
        simp [parseVal, skipWs_cons_not_ws _ (show isJsonWs 'n' = false by decide)]
      | obj fields =>
        cases fields with
        | nil =>
          have hshape : dumpJson (.obj .nil) ++ rest =
              lbraceChar :: (rbraceChar :: rest) := by simp [dumpJson, dumpJMembers]
          rw [hshape]
          simp [parseVal, skipWs_cons_not_ws _ lbrace_not_ws,
            skipWs_cons_not_ws _ rbrace_not_ws, lbrace_ne_q, lbrace_ne_t, lbrace_ne_f,
            lbrace_ne_n, lbrace_ne_minus, lbrace_not_digit]
        | cons k v tail =>
          have hshape : dumpJson (.obj (.cons k v tail)) ++ rest =
              lbraceChar :: (dumpJMembers (.cons k v tail) ++ rbraceChar :: rest) := by
            simp [dumpJson]
          rw [hshape]
          have hmem := ih.2 k v tail rest (by simp only [jsizeJ] at hsize; omega)
          have hhead : dumpJMembers (.cons k v tail) ++ rbraceChar :: rest =
              '"' :: (escapeString k.data ++ ('"' :: ':' :: ' ' ::
                (dumpJson v ++ (jmemSep tail ++ (dumpJMembers tail ++
                  rbraceChar :: rest))))) := by
            simp [dumpJMembers, dumpJString]
          simp only [parseVal, skipWs_cons_not_ws _ lbrace_not_ws]
          rw [if_neg lbrace_ne_q, if_neg lbrace_ne_t, if_neg lbrace_ne_f, if_neg lbrace_ne_n,
            if_neg lbrace_ne_minus, if_neg (show ¬ isDigitChar lbraceChar = true by decide),
            if_true]
          rw [skipWs_dumpJMembers_cons, hhead]
          rw [hhead] at hmem
          simp [quote_ne_rbrace, hmem]
    · intro k v tail rest hsize
      cases tail with
      | nil =>
        have hshape : dumpJMembers (.cons k v .nil) ++ rbraceChar :: rest =
            '"' :: (escapeString k.data ++ '"' ::
              (':' :: ' ' :: (dumpJson v ++ rbraceChar :: rest))) := by
          simp [dumpJMembers, dumpJString, jmemSep]
        rw [hshape]
        have hscan := scanString_escapeString k.data
          ((escapeString k.data ++ '"' ::
            (':' :: ' ' :: (dumpJson v ++ rbraceChar :: rest))).length + 1) []
          (':' :: ' ' :: (dumpJson v ++ rbraceChar :: rest))
          (by simp only [List.length_append, List.length_cons]
              have := escapeString_length_ge k.data
              omega)
        have hval := ih.1 v (rbraceChar :: rest)
          (by simp [jsizeM] at hsize; omega)
          (by intro c hc; simp at hc; subst hc; decide)
        have hws := parseVal_ws_cons (c := ' ') f (dumpJson v ++ rbraceChar :: rest)
          (by decide)
        try simp at hscan
        try simp at hval
        try simp at hws
        simp [parseMembers, skipWs_cons_not_ws _ (show isJsonWs ':' = false by decide),
          skipWs_cons_not_ws _ (show isJsonWs rbraceChar = false by decide),
          hscan, hws, hval, rbrace_ne_comma]
        try rfl
      | cons k2 v2 tail2 =>
        have hshape : dumpJMembers (.cons k v (.cons k2 v2 tail2)) ++ rbraceChar :: rest =
            '"' :: (escapeString k.data ++ '"' ::
              (':' :: ' ' :: (dumpJson v ++ ',' :: ' ' ::
                (dumpJMembers (.cons k2 v2 tail2) ++ rbraceChar :: rest)))) := by
          simp [dumpJMembers, dumpJString, jmemSep]
        rw [hshape]
        have hscan := scanString_escapeString k.data
          ((escapeString k.data ++ '"' ::
            (':' :: ' ' :: (dumpJson v ++ ',' :: ' ' ::
              (dumpJMembers (.cons k2 v2 tail2) ++ rbraceChar :: rest)))).length + 1) []
          (':' :: ' ' :: (dumpJson v ++ ',' :: ' ' ::
            (dumpJMembers (.cons k2 v2 tail2) ++ rbraceChar :: rest)))
          (by simp only [List.length_append, List.length_cons]
              have := escapeString_length_ge k.data
              omega)
        have hval := ih.1 v (',' :: ' ' ::
            (dumpJMembers (.cons k2 v2 tail2) ++ rbraceChar :: rest))
          (by simp [jsizeM] at hsize; omega)
          (by intro c hc; simp at hc; subst hc; decide)
        have hws := parseVal_ws_cons (c := ' ') f (dumpJson v ++ ',' :: ' ' ::
            (dumpJMembers (.cons k2 v2 tail2) ++ rbraceChar :: rest)) (by decide)
        have hmem := ih.2 k2 v2 tail2 rest (by simp [jsizeM] at hsize ⊢; omega)
        try simp at hscan
        try simp at hval
        try simp at hws
        try simp at hmem
        simp [parseMembers, skipWs_cons_not_ws _ (show isJsonWs ':' = false by decide),
          skipWs_cons_not_ws _ (show isJsonWs ',' = false by decide),
          skipWs_cons_ws _ (show isJsonWs ' ' = true by decide),
          skipWs_dumpJMembers_cons, hscan, hws, hval, hmem]
        try rfl

mutual

theorem jsizeJ_le_dump (j : Json) : jsizeJ j ≤ (dumpJson j).length := by
  cases j with
  | str s => simp [jsizeJ, dumpJson, dumpJString]
  | int n =>
    have h1 := natDigits_ne_nil n.natAbs
    have h2 : 0 < (natDigits n.natAbs).length := List.length_pos.mpr h1
    unfold jsizeJ dumpJson intRepr
    by_cases hn : n < 0 <;> simp [hn] <;> omega
  | bool b => cases b <;> simp [jsizeJ, dumpJson]
  | null => simp [jsizeJ, dumpJson]
  | obj fields =>
    have h := jsizeM_le_dump fields
    simp only [jsizeJ, dumpJson, List.length_cons, List.length_append]
    simp
    omega

theorem jsizeM_le_dump (m : JMembers) : jsizeM m ≤ (dumpJMembers m).length := by
  cases m with
  | nil => simp [jsizeM, dumpJMembers]
  | cons k v rest =>
    have h1 := jsizeJ_le_dump v
    have h2 := jsizeM_le_dump rest
    simp only [jsizeM, dumpJMembers, dumpJString, List.length_append, List.length_cons]
    simp
    omega

end

/-- Embedding of `json.loads(json.dumps(j))` succeeding with `j` itself:
the parser entry point, given exactly a serialized value, returns it. -/
theorem parseJsonText_dumpJson (j : Json) : parseJsonText (dumpJson j) = some j := by
  unfold parseJsonText
  have hmain := (parseVal_dumpJson_main ((dumpJson j).length + 1)).1 j []
    (by have := jsizeJ_le_dump j; omega) (by intro c hc; simp at hc)
  rw [List.append_nil] at hmain
  rw [hmain]
  simp [skipWs]

/-! ### Byte frames

`send_json` (tcp_file_server lines 65-69, and the inline copy in
`http_frontend.handle_begin` lines 370-372) writes
`pack_length(len(body)) || body` with `body = json.dumps(data).encode("utf-8")`;
`recv_json` (tcp_file_server lines 72-77, `Handler.recv_json` lines
519-524) reads eight bytes, unpacks the body length, reads exactly that
many bytes and parses them.  Since the serializer's output is pure ASCII,
UTF-8 encoding is one byte per character; `asciiDecode` models
`bytes.decode("utf-8")` on that same ASCII subset (a frame these
programs emit never contains a multi-byte sequence). -/

/-- UTF-8 encoding of an ASCII character sequence: one byte each. -/
def asciiEncode (cs : List Char) : List Nat := cs.map Char.toNat

/-- UTF-8 decoding restricted to the ASCII subset. -/
def asciiDecode (bs : List Nat) : Option (List Char) :=
  if bs.all (fun b => b < 128) then some (bs.map Char.ofNat) else none

theorem asciiDecode_asciiEncode (cs : List Char) (h : allAscii cs) :
    asciiDecode (asciiEncode cs) = some cs := by
  unfold asciiDecode asciiEncode
  have hall : (cs.map Char.toNat).all (fun b => b < 128) := by
    rw [List.all_eq_true]
    intro b hb
    rw [List.mem_map] at hb
    obtain ⟨c, hc, rfl⟩ := hb
    simpa using h c hc
  rw [if_pos hall, List.map_map]
  congr 1
  conv_rhs => rw [← List.map_id cs]
  exact List.map_congr_left (fun c _ => Char.ofNat_toNat c)

/-- Embedding of `send_json(conn, data)`: the byte frame written for one
control message. -/
def send_json (data : Json) : List Nat :=
  pack_length (asciiEncode (dumpJson data)).length ++ asciiEncode (dumpJson data)

/-- Embedding of `recv_json(conn)` over the byte stream remaining on the
connection: reads the 8-byte length, then exactly that many body bytes,
then parses; a stream too short to satisfy either read is the premature
close `recv_exactly` turns into `ConnectionError`, and an unparsable body
is `json.loads` raising. -/
def recv_json (stream : List Nat) : Except String (Json × List Nat) :=
  if stream.length < 8 then .error "Connection closed while reading"
  else
    let n := unpack_length (stream.take 8)
    let rest := stream.drop 8
    if rest.length < n then .error "Connection closed while reading"
    else
      match asciiDecode (rest.take n) with
      | none => .error "UnicodeDecodeError"
      | some cs =>
        match parseJsonText cs with
        | some j => .ok (j, rest.drop n)
        | none => .error "JSONDecodeError"

/-- Frame round trip: receiving from a stream that starts with a sent
frame yields the sent message and leaves exactly the trailing stream. -/
theorem recv_json_send_json (m : Json) (extra : List Nat)
    (h : (dumpJson m).length < 2 ^ 64) :
    recv_json (send_json m ++ extra) = .ok (m, extra) := by
  unfold send_json recv_json
  have hblen : (asciiEncode (dumpJson m)).length = (dumpJson m).length := by
    simp [asciiEncode]
  have hplen := pack_length_length (asciiEncode (dumpJson m)).length
  have hassoc : pack_length (asciiEncode (dumpJson m)).length ++ asciiEncode (dumpJson m) ++
      extra = pack_length (asciiEncode (dumpJson m)).length ++
        (asciiEncode (dumpJson m) ++ extra) := by
    simp
  rw [hassoc]
  have hlen : (pack_length (asciiEncode (dumpJson m)).length ++
      (asciiEncode (dumpJson m) ++ extra)).length =
      8 + ((dumpJson m).length + extra.length) := by
    rw [List.length_append, List.length_append, hplen, hblen]
  rw [if_neg (by omega)]
  have htake : (pack_length (asciiEncode (dumpJson m)).length ++
      (asciiEncode (dumpJson m) ++ extra)).take 8 =
      pack_length (asciiEncode (dumpJson m)).length := by
    rw [← hplen]
    exact List.take_left _ _
  have hdrop : (pack_length (asciiEncode (dumpJson m)).length ++
      (asciiEncode (dumpJson m) ++ extra)).drop 8 =
      asciiEncode (dumpJson m) ++ extra := by
    rw [← hplen]
    exact List.drop_left _ _
  rw [htake, hdrop]
  have hunpack : unpack_length (pack_length (asciiEncode (dumpJson m)).length) =
      (asciiEncode (dumpJson m)).length :=
    unpack_length_pack_length _ (by omega)
  rw [hunpack]
  rw [if_neg (by rw [List.length_append]; omega)]
  rw [List.take_left, List.drop_left]
  rw [asciiDecode_asciiEncode _ (dumpJson_ascii m)]
  simp [parseJsonText_dumpJson]

/-! ### Filesystem model and the Filename Resolver

The receive directory's namespace is an association list from paths to
byte contents; `fsGet` is lookup, `fsExists` is `os.path.exists`, and
`fsWrite` is `open(path, "wb")` followed by the writes of one transfer
(the new entry shadows any previous one, as truncation would).
Directories are not modelled: `os.makedirs(dest_dir, exist_ok=True)` in
`unique_save_path` touches no file. -/

/-- Filesystem namespace under the receive directory. -/
abbrev FS := List (String × List Nat)

/-- Lookup of a path's contents. -/
def fsGet : FS → String → Option (List Nat)
  | [], _ => none
  | (k, v) :: t, p => if k = p then some v else fsGet t p

/-- Embedding of `os.path.exists` over the modelled namespace. -/
def fsExists (fs : FS) (p : String) : Bool := (fsGet fs p).isSome

/-- Effect on the namespace of opening `p` for writing and writing
`content` into it. -/
def fsWrite (fs : FS) (p : String) (content : List Nat) : FS := (p, content) :: fs

/-- Embedding of `os.path.splitext` (POSIX): split at the last dot that
follows the last separator, unless every character between them and it
is itself a dot (a leading-dots name such as `.bashrc` has no
extension). -/
def splitext (name : String) : String × String :=
  let rev := name.data.reverse
  let extRevLen := (rev.takeWhile (fun c => decide (c ≠ '.' ∧ c ≠ '/'))).length
  match rev.drop extRevLen with
  | '.' :: stemRev =>
    if (stemRev.takeWhile (fun c => decide (c ≠ '/'))).all (fun c => decide (c = '.')) then
      (name, "")
    else (⟨stemRev.reverse⟩, ⟨'.' :: (rev.take extRevLen).reverse⟩)
  | _ => (name, "")

/-- Embedding of `os.path.join(dir, name)` on POSIX for a relative bare
name. -/
def joinPath (dir name : String) : String := dir ++ "/" ++ name

/-- Candidate path the rename loop tries at a given counter:
`os.path.join(dest_dir, f"{base} ({counter}){ext}")`. -/
def renameCandidate (dir base ext : String) (counter : Nat) : String :=
  joinPath dir (base ++ " (" ++ natRepr counter ++ ")" ++ ext)

/-- The `while os.path.exists(candidate)` loop of `unique_save_path`,
trying counters in order.  Fuel bounds the iterations;
`unique_save_path` passes one more than the number of files, which the
pigeonhole argument below shows always suffices (the fuel-exhausted
branch is unreachable there). -/
def uniqueLoop (fs : FS) (dir base ext : String) : Nat → Nat → String
  | 0, counter => renameCandidate dir base ext counter
  | fuel + 1, counter =>
    if fsExists fs (renameCandidate dir base ext counter) then
      uniqueLoop fs dir base ext fuel (counter + 1)
    else renameCandidate dir base ext counter

/-- Embedding of `shared.unique_save_path`: the requested name when it is
free, otherwise `stem (N)ext` for the first free counter, together with
the renamed flag. -/
def unique_save_path (fs : FS) (dest_dir filename : String) : String × Bool :=
  let se := splitext filename
  if fsExists fs (joinPath dest_dir filename) then
    (uniqueLoop fs dest_dir se.1 se.2 (fs.length + 1) 1, true)
  else (joinPath dest_dir filename, false)

theorem renameCandidate_inj (dir base ext : String) {c1 c2 : Nat}
    (h : renameCandidate dir base ext c1 = renameCandidate dir base ext c2) : c1 = c2 := by
  have hd : (renameCandidate dir base ext c1).data = (renameCandidate dir base ext c2).data := by
    rw [h]
  simp only [renameCandidate, joinPath, natRepr, String.data_append] at hd
  apply natDigits_inj
  have h1 := List.append_cancel_left hd
  have h2 := List.append_cancel_right h1
  have h3 := List.append_cancel_right h2
  exact List.append_cancel_left h3

theorem fsExists_mem_keys {fs : FS} {p : String} (h : fsExists fs p = true) :
    p ∈ fs.map Prod.fst := by
  induction fs with
  | nil => simp [fsExists, fsGet] at h
  | cons e t ih =>
    match e with
    | (k, v) =>
      by_cases hk : k = p
      · subst hk; simp
      · simp only [fsExists, fsGet, hk, if_false] at h
        simp only [List.map_cons, List.mem_cons]
        exact Or.inr (ih h)

/-- Pigeonhole: among the first `fs.length + 1` counters some candidate
is free, because distinct counters give distinct paths. -/
theorem exists_free_counter (fs : FS) (dir base ext : String) :
    ∃ c, 1 ≤ c ∧ c ≤ fs.length + 1 ∧
      fsExists fs (renameCandidate dir base ext c) = false := by
  by_contra hcon
  push_neg at hcon
  have hall : ∀ c, 1 ≤ c → c ≤ fs.length + 1 →
      fsExists fs (renameCandidate dir base ext c) = true := by
    intro c h1 h2
    have := hcon c h1 h2
    revert this
    cases fsExists fs (renameCandidate dir base ext c) <;> simp
  have hinj : Function.Injective (fun i => renameCandidate dir base ext (i + 1)) := by
    intro a b hab
    have := renameCandidate_inj dir base ext hab
    omega
  have hnd : ((List.range (fs.length + 1)).map
      (fun i => renameCandidate dir base ext (i + 1))).Nodup :=
    (List.nodup_range _).map hinj
  have hsub : ((List.range (fs.length + 1)).map
      (fun i => renameCandidate dir base ext (i + 1))) ⊆ fs.map Prod.fst := by
    intro x hx
    rw [List.mem_map] at hx
    obtain ⟨i, hi, rfl⟩ := hx
    rw [List.mem_range] at hi
    exact fsExists_mem_keys (hall (i + 1) (by omega) (by omega))
  have hle := (List.subperm_of_subset hnd hsub).length_le
  simp at hle

theorem uniqueLoop_finds (fs : FS) (dir base ext : String) :
    ∀ (fuel start c0 : Nat), start ≤ c0 →
    fsExists fs (renameCandidate dir base ext c0) = false →
    (∀ c, start ≤ c → c < c0 → fsExists fs (renameCandidate dir base ext c) = true) →
    c0 - start < fuel →
    uniqueLoop fs dir base ext fuel start = renameCandidate dir base ext c0 := by
  intro fuel
  induction fuel with
  | zero => intro start c0 _ _ _ hf; omega
  | succ f ih =>
    intro start c0 hle hfree htaken hf
    by_cases heq : start = c0
    · subst heq
      simp [uniqueLoop, hfree]
    · have hlt : start < c0 := by omega
      have ht := htaken start (le_refl _) hlt
      show (if fsExists fs (renameCandidate dir base ext start) then
        uniqueLoop fs dir base ext f (start + 1) else renameCandidate dir base ext start) = _
      rw [if_pos ht]
      exact ih (start + 1) c0 (by omega) hfree
        (fun c h1 h2 => htaken c (by omega) h2) (by omega)

/-- Embedding of `os.path.basename` on POSIX: the part after the last
separator. -/
def basename (p : String) : String :=
  ⟨(p.data.reverse.takeWhile (fun c => decide (c ≠ '/'))).reverse⟩

theorem basename_joinPath (dir name : String) (h : '/' ∉ name.data) :
    basename (joinPath dir name) = name := by
  unfold basename joinPath
  have hdata : (dir ++ "/" ++ name).data = (dir.data ++ ['/']) ++ name.data := by
    simp [String.data_append]
  rw [hdata, List.reverse_append]
  have hrev : (dir.data ++ ['/']).reverse = '/' :: dir.data.reverse := by
    simp
  rw [hrev]
  rw [takeWhile_all_append (p := fun c => decide (c ≠ '/'))
    (fun c hc => by
      simp only [decide_eq_true_eq]
      intro he
      subst he
      exact h (List.mem_reverse.mp hc))
    (fun c hc => by
      simp only [List.head?_cons, Option.some.injEq] at hc
      subst hc
      simp)]
  simp

/-! ### TCP receiver (`tcp_file_server.handle_client`)

The connection is a byte list: what the client will ever send; the list
ending models the peer closing.  `recv(n)` returns at most `n` bytes and
only returns empty at close, so the deterministic embedding takes
everything available up to the bound.  The receiver's result is the
sequence of framed messages it attempts to write (the `except` branch
also attempts one — whether the peer still reads it does not change the
receiver's behaviour), the final filesystem, and the fact that `finally:
conn.close()` ran.  Exception carrier strings for errors raised inside
CPython (`json.loads`, `int()`, `in` on a non-string) are modelled
loosely; no theorem below depends on their text, only on the `status`
field of the message that carries them. -/

/-- Constant from `tcp_file_server.py`: the receive directory
(`os.path.join(os.path.dirname(__file__), "received")`); its exact text
is opaque to every claim. -/
def RECEIVE_DIR : String := "received"

/-- An ERROR control message with a reason, as built inline throughout
`tcp_file_server.py`. -/
def errJson (msg : String) : Json :=
  .obj (.cons "status" (.str "ERROR") (.cons "message" (.str msg) .nil))

/-- Conversion `int(x)` applied to a decoded JSON value. -/
def pyIntOfJson : Json → Except String Int
  | .int n => .ok n
  | .bool b => .ok (if b then 1 else 0)
  | .str s =>
    match pyParseInt s with
    | some n => .ok n
    | none => .error "invalid literal for int() with base 10"
  | .null => .error "int() argument must be a string or a number, not NoneType"
  | .obj _ => .error "int() argument must be a string or a number, not dict"

/-- Embedding of `tcp_file_server.validate_request`.  On POSIX
`os.path.sep` is `'/'` and `os.path.altsep` is `None` (so the `altsep`
conjunct is falsy and skipped), and `ALLOWED_EXTENSIONS` is the empty
list, so the extension branch is dead.  `in` applied to a non-string
`filename` raises `TypeError`, the `.error` arm. -/
def validate_request (filename : Json) (filesize : Int) : Except String (Bool × String) :=
  if filesize < 0 then .ok (false, "Filesize must be non-negative.")
  else if filesize > MAX_FILE_SIZE_BYTES then
    .ok (false, "File too large. Limit is " ++ intRepr MAX_FILE_SIZE_BYTES ++ " bytes.")
  else
    match filename with
    | .str s =>
      if '/' ∈ s.data then .ok (false, "Invalid filename.")
      else .ok (true, "OK")
    | _ => .error "argument of type is not iterable"

/-- Outcome of the byte-receiving loop: the bytes written to the file so
far, whether the declared count was reached, and the unread stream. -/
structure RecvResult where
  content : List Nat
  ok : Bool
  rest : List Nat

/-- The `while bytes_remaining > 0` loop of `handle_client`, reading at
most `CHUNK_SIZE` bytes at a time and failing when the connection closes
early.  Fuel bounds iterations; each one consumes at least one byte of
`remaining`, so `recvLoop` passing `remaining` itself always suffices. -/
def recvLoopAux : Nat → List Nat → Nat → List Nat → RecvResult
  | _, stream, 0, acc => ⟨acc, true, stream⟩
  | 0, stream, _ + 1, acc => ⟨acc, false, stream⟩
  | fuel + 1, stream, r + 1, acc =>
    let chunk := stream.take (min CHUNK_SIZE (r + 1))
    if chunk.length = 0 then ⟨acc, false, stream⟩
    else recvLoopAux fuel (stream.drop chunk.length) (r + 1 - chunk.length) (acc ++ chunk)

/-- Receiving loop from a fresh counter. -/
def recvLoop (stream : List Nat) (remaining : Nat) : RecvResult :=
  recvLoopAux remaining stream remaining []

theorem recvLoopAux_spec : ∀ (fuel : Nat) (stream : List Nat) (remaining : Nat)
    (acc : List Nat), remaining ≤ fuel →
    recvLoopAux fuel stream remaining acc =
      if remaining ≤ stream.length then
        ⟨acc ++ stream.take remaining, true, stream.drop remaining⟩
      else ⟨acc ++ stream, false, []⟩ := by
  intro fuel
  induction fuel with
  | zero =>
    intro stream remaining acc hle
    have : remaining = 0 := by omega
    subst this
    simp [recvLoopAux]
  | succ f ih =>
    intro stream remaining acc hle
    match remaining with
    | 0 => simp [recvLoopAux]
    | r + 1 =>
      show (let chunk := stream.take (min CHUNK_SIZE (r + 1));
        if chunk.length = 0 then RecvResult.mk acc false stream
        else recvLoopAux f (stream.drop chunk.length) (r + 1 - chunk.length) (acc ++ chunk)) = _
      simp only [List.length_take]
      by_cases hnil : stream.length = 0
      · have hstream : stream = [] := List.length_eq_zero.mp hnil
        subst hstream
        simp [CHUNK_SIZE]
      · have hchunk : min (min CHUNK_SIZE (r + 1)) stream.length ≠ 0 := by
          simp only [CHUNK_SIZE]
          omega
        rw [if_neg hchunk]
        set clen := min (min CHUNK_SIZE (r + 1)) stream.length with hclen
        have hclen_pos : 1 ≤ clen := by omega
        have hclen_le_r : clen ≤ r + 1 := by omega
        have hclen_le_s : clen ≤ stream.length := by omega
        have hchunk_take : stream.take (min CHUNK_SIZE (r + 1)) = stream.take clen := by
          apply List.take_eq_take.mpr
          omega
        rw [hchunk_take]
        rw [ih (stream.drop clen) (r + 1 - clen) (acc ++ stream.take clen) (by omega)]
        have hdlen : (stream.drop clen).length = stream.length - clen :=
          List.length_drop _ _
        by_cases hfit : r + 1 ≤ stream.length
        · rw [if_pos (by rw [hdlen]; omega), if_pos hfit]
          have hsplit : r + 1 = clen + (r + 1 - clen) := by omega
          have htake : stream.take clen ++ (stream.drop clen).take (r + 1 - clen) =
              stream.take (r + 1) := by
            rw [hsplit, List.take_add]
            congr 2
            omega
          have hdrop : (stream.drop clen).drop (r + 1 - clen) = stream.drop (r + 1) := by
            rw [List.drop_drop]
            congr 1
            omega
          rw [List.append_assoc, htake, hdrop]
        · rw [if_neg (by rw [hdlen]; omega), if_neg hfit]
          rw [List.append_assoc, List.take_append_drop]

theorem recvLoop_enough (stream : List Nat) (remaining : Nat)
    (h : remaining ≤ stream.length) :
    recvLoop stream remaining =
      ⟨stream.take remaining, true, stream.drop remaining⟩ := by
  unfold recvLoop
  rw [recvLoopAux_spec remaining stream remaining [] (le_refl _), if_pos h]
  simp

theorem recvLoop_short (stream : List Nat) (remaining : Nat)
    (h : stream.length < remaining) :
    recvLoop stream remaining = ⟨stream, false, []⟩ := by
  unfold recvLoop
  rw [recvLoopAux_spec remaining stream remaining [] (le_refl _), if_neg (by omega)]
  simp

/-- Result of one `handle_client` connection: the framed messages it
attempts to send, in order, the filesystem afterwards, and the close from
the `finally` block. -/
structure ClientResult where
  sent : List Json
  fs : FS
  closed : Bool

/-- Header control message as the sender builds it. -/
def headerJson (filename : String) (filesize : Int) : Json :=
  .obj (.cons "filename" (.str filename) (.cons "filesize" (.int filesize) .nil))

/-- Acceptance message `handle_client` sends when validation passes. -/
def acceptJson (saveName : String) : Json :=
  .obj (.cons "status" (.str "OK") (.cons "save_as" (.str saveName)
    (.cons "message" (.str "Ready to receive") .nil)))

/-- Completion message `handle_client` sends after a full transfer. -/
def doneJson (saveName : String) (bytes : Int) (renamed : Bool) : Json :=
  .obj (.cons "status" (.str "DONE") (.cons "saved_as" (.str saveName)
    (.cons "bytes_received" (.int bytes) (.cons "renamed" (.bool renamed)
    (.cons "message" (.str "Received successfully") .nil)))))

/-- Embedding of `tcp_file_server.handle_client` on one connection's byte
stream.  Every `except` path attempts to send one framed ERROR message
(`send_json` inside the handler's `except` arm) and every path closes the
connection in `finally`.  The `.ok (true, _)` arm of `validate_request`
only arises for a string filename; the final wildcard arm is
unreachable and kept only to make the match total. -/
def handle_client (fs : FS) (stream : List Nat) : ClientResult :=
  match recv_json stream with
  | .error e => ⟨[errJson e], fs, true⟩
  | .ok (header, rest) =>
    match header with
    | .obj _ =>
      let filenameJ := (jsonGet header "filename").getD .null
      match pyIntOfJson ((jsonGet header "filesize").getD (.int (-1))) with
      | .error e => ⟨[errJson e], fs, true⟩
      | .ok filesize =>
        match validate_request filenameJ filesize with
        | .error e => ⟨[errJson e], fs, true⟩
        | .ok (false, msg) => ⟨[errJson msg], fs, true⟩
        | .ok (true, _) =>
          match filenameJ with
          | .str filename =>
            let sp := unique_save_path fs RECEIVE_DIR filename
            let saveName := basename sp.1
            let r := recvLoop rest filesize.toNat
            let fs2 := fsWrite fs sp.1 r.content
            if r.ok then
              ⟨[acceptJson saveName,
                doneJson saveName (r.content.length : Int) sp.2], fs2, true⟩
            else
              ⟨[acceptJson saveName,
                errJson "Connection closed during file transfer"], fs2, true⟩
          | _ => ⟨[errJson "unreachable"], fs, true⟩
    | _ => ⟨[errJson "get: not a dictionary"], fs, true⟩

/-- Behaviour of `handle_client` whenever the first frame cannot be
read: whatever the receiver state, it attempts exactly one ERROR message,
leaves the filesystem untouched, and closes. -/
theorem handle_client_recv_error (fs : FS) (stream : List Nat) (e : String)
    (h : recv_json stream = .error e) :
    handle_client fs stream = ⟨[errJson e], fs, true⟩ := by
  unfold handle_client
  rw [h]

/-- Behaviour of `handle_client` on a well-formed header frame the
validation rejects: one ERROR message carrying the reason, no file
touched, connection closed. -/
theorem handle_client_rejected (fs : FS) (fn : String) (size : Int)
    (body : List Nat) (msg : String)
    (hv : validate_request (.str fn) size = .ok (false, msg))
    (hdump : (dumpJson (headerJson fn size)).length < 2 ^ 64) :
    handle_client fs (send_json (headerJson fn size) ++ body) =
      ⟨[errJson msg], fs, true⟩ := by
  unfold handle_client
  rw [recv_json_send_json _ _ hdump]
  simp [headerJson, jsonGet, jmemGet, pyIntOfJson, hv]

/-- Behaviour of `handle_client` on an accepted header: the acceptance
message goes out, the payload bytes that arrive are streamed into the
resolved path, and the final message is `DONE` exactly when the declared
count was reached — otherwise the partial file stays and an ERROR is
attempted. -/
theorem handle_client_accepted (fs : FS) (fn : String) (size : Int) (body : List Nat)
    (hsep : '/' ∉ fn.data) (h0 : 0 ≤ size) (hmax : size ≤ MAX_FILE_SIZE_BYTES)
    (hdump : (dumpJson (headerJson fn size)).length < 2 ^ 64) :
    handle_client fs (send_json (headerJson fn size) ++ body) =
      if (recvLoop body size.toNat).ok then
        ⟨[acceptJson (basename (unique_save_path fs RECEIVE_DIR fn).1),
          doneJson (basename (unique_save_path fs RECEIVE_DIR fn).1)
            ((recvLoop body size.toNat).content.length : Int)
            (unique_save_path fs RECEIVE_DIR fn).2],
          fsWrite fs (unique_save_path fs RECEIVE_DIR fn).1 (recvLoop body size.toNat).content,
          true⟩
      else
        ⟨[acceptJson (basename (unique_save_path fs RECEIVE_DIR fn).1),
          errJson "Connection closed during file transfer"],
          fsWrite fs (unique_save_path fs RECEIVE_DIR fn).1 (recvLoop body size.toNat).content,
          true⟩ := by
  have hv : validate_request (.str fn) size = .ok (true, "OK") := by
    unfold validate_request
    rw [if_neg (by omega), if_neg (by omega)]
    simp [hsep]
  unfold handle_client
  rw [recv_json_send_json _ _ hdump]
  simp [headerJson, jsonGet, jmemGet, pyIntOfJson, hv]

/-! ### Session relay (`http_frontend.Handler`)

The session table `SESSIONS` is an association list from session ids to
sessions; the lock only serializes table access, and each HTTP request is
handled as one atomic step here, which the lock discipline justifies for
the table operations every claim below speaks about.  The TCP connection
a session holds is represented by oracles: `connResult` in `begin` is the
outcome of `socket.create_connection` plus the Header/Acceptance
exchange, `connRead` in `end` the outcome of the blocking `recv_json`.
Each handler returns its HTTP response (status code plus JSON body), the
table afterwards, and what it put on the wire where a claim needs it. -/

/-- One relay-side transfer session, as stored in `SESSIONS`. -/
structure Session where
  filesize : Int
  received : Int
  saveAs : Json

/-- The in-memory session table. -/
abbrev Sessions := List (String × Session)

/-- Dictionary lookup `SESSIONS.get(session_id)`. -/
def sessGet : Sessions → String → Option Session
  | [], _ => none
  | (k, v) :: t, i => if k = i then some v else sessGet t i

/-- Dictionary removal `SESSIONS.pop(session_id, None)`. -/
def sessPop (s : Sessions) (i : String) : Sessions :=
  s.filter (fun e => decide (e.1 ≠ i))

/-- Dictionary assignment `SESSIONS[session_id] = ...` (also used for the
in-place `sess["received"] += n`, which under the sequential-step model
is fetch-then-store of the same key). -/
def sessSet (s : Sessions) (i : String) (v : Session) : Sessions :=
  (i, v) :: sessPop s i

/-- One HTTP response as `Handler.send_json(status_code, data)` writes
it.  Code `0` stands for a handler that raised with no response written
(only the unreachable non-dictionary arm of `end` uses it). -/
structure HttpResp where
  code : Nat
  body : Json

/-- An OK response body with a message. -/
def okMsg (m : String) : Json :=
  .obj (.cons "status" (.str "OK") (.cons "message" (.str m) .nil))

/-- An ERROR response body whose message is an arbitrary JSON value (the
relay forwards whatever the receiver's message field held). -/
def errJsonV (msg : Json) : Json :=
  .obj (.cons "status" (.str "ERROR") (.cons "message" msg .nil))

/-- Truthiness of a decoded JSON value, as Python's `or` sees it. -/
def jsonTruthy : Json → Bool
  | .null => false
  | .str s => decide (s ≠ "")
  | .int n => decide (n ≠ 0)
  | .bool b => b
  | .obj .nil => false
  | .obj (.cons _ _ _) => true

/-- Whether an optional JSON value is exactly the given string, the shape
of Python's `x.get(k) == "LIT"` comparisons. -/
def jsonIsStr (j : Option Json) (s : String) : Bool :=
  match j with
  | some (.str t) => decide (t = s)
  | _ => false

/-- Result of `handle_begin`: response, table, and whether the handler
reached `socket.create_connection` (false exactly when a pre-connection
check rejected the request). -/
structure BeginResult where
  resp : HttpResp
  sessions : Sessions
  connected : Bool

/-- Embedding of `Handler.handle_begin`.  `filename` is the
percent-decoded `X-Filename` (the decoding itself is
`urllib.parse.unquote`, standard-library code outside this model);
`xFilesize` is the raw `X-Filesize` header; `newId` stands for the fresh
`secrets.token_hex(16)`; `connResult` is the connection oracle. -/
def handle_begin (sessions : Sessions) (host portStr : String) (filename : String)
    (xFilesize : Option String) (connResult : Except String Json) (newId : String) :
    BeginResult :=
  match pyParseInt portStr with
  | none => ⟨⟨400, errJson "Invalid port"⟩, sessions, false⟩
  | some port =>
    if host = "" ∨ ¬ (1 ≤ port ∧ port ≤ 65535) then
      ⟨⟨400, errJson "Invalid host or port"⟩, sessions, false⟩
    else
      let filesize := (pyParseInt (xFilesize.getD "")).getD (-1)
      if filesize ≤ 0 then
        ⟨⟨400, errJson "Missing or invalid file size"⟩, sessions, false⟩
      else
        match connResult with
        | .error e => ⟨⟨500, errJson e⟩, sessions, true⟩
        | .ok serverResp =>
          match serverResp with
          | .obj fields =>
            if jsonIsStr (jmemGet fields "status") "OK" then
              let v := (jmemGet fields "save_as").getD .null
              let saveAs := if jsonTruthy v then v else .str filename
              ⟨⟨200, .obj (.cons "status" (.str "OK")
                  (.cons "session_id" (.str newId) (.cons "save_as" saveAs .nil)))⟩,
                sessSet sessions newId ⟨filesize, 0, saveAs⟩, true⟩
            else
              ⟨⟨400, errJsonV ((jmemGet fields "message").getD
                  (.str "Server rejected the upload"))⟩, sessions, true⟩
          | _ => ⟨⟨500, errJson "AttributeError: get"⟩, sessions, true⟩

/-- Result of `handle_chunk`: response, table, and the bytes actually
forwarded onto the held TCP connection. -/
structure ChunkResult where
  resp : HttpResp
  sessions : Sessions
  forwarded : List Nat

/-- Embedding of `Handler.handle_chunk`.  `contentLength` is the raw
`Content-Length` header (`int(content_length or "0")` in the source —
note nothing constrains its sign); `body` is what the request body
actually provides.  On a body shorter than the declared length the
forwarding loop hits EOF after sending what arrived, and the handler
closes the connection and discards the session. -/
def handle_chunk (sessions : Sessions) (sessionId : String)
    (contentLength : Option String) (body : List Nat) : ChunkResult :=
  if sessionId = "" then ⟨⟨400, errJson "Missing session id"⟩, sessions, []⟩
  else
    let cls := match contentLength with
      | none => "0"
      | some s => if s = "" then "0" else s
    match pyParseInt cls with
    | none => ⟨⟨400, errJson "Missing Content-Length"⟩, sessions, []⟩
    | some n =>
      match sessGet sessions sessionId with
      | none => ⟨⟨404, errJson "Invalid session"⟩, sessions, []⟩
      | some sess =>
        if n > sess.filesize - sess.received then
          ⟨⟨400, errJson "Chunk exceeds remaining bytes"⟩, sessions, []⟩
        else if (body.length : Int) < n then
          ⟨⟨500, errJson "Unexpected EOF in chunk body"⟩, sessPop sessions sessionId, body⟩
        else
          ⟨⟨200, .obj (.cons "status" (.str "OK")
              (.cons "received" (.int (sess.received + n))
              (.cons "remaining" (.int (sess.filesize - (sess.received + n))) .nil)))⟩,
            sessSet sessions sessionId { sess with received := sess.received + n },
            body.take n.toNat⟩

/-- Result of `handle_end`: response, table, and whether the held TCP
connection was closed by this call. -/
structure EndResult where
  resp : HttpResp
  sessions : Sessions
  closedConn : Bool

/-- Embedding of `Handler.handle_end`.  `connRead` is the outcome of the
blocking `recv_json` on the held connection. -/
def handle_end (sessions : Sessions) (sessionId : String)
    (connRead : Except String Json) : EndResult :=
  if sessionId = "" then ⟨⟨400, errJson "Missing session id"⟩, sessions, false⟩
  else
    match sessGet sessions sessionId with
    | none => ⟨⟨404, errJson "Invalid session"⟩, sessions, false⟩
    | some sess =>
      if sess.received ≠ sess.filesize then
        let respJson := match connRead with
          | .ok r => r
          | .error _ => errJson "Size mismatch at end"
        match respJson with
        | .obj fields =>
          ⟨⟨400, errJsonV ((jmemGet fields "message").getD (.str "Size mismatch"))⟩,
            sessPop sessions sessionId, true⟩
        | _ => ⟨⟨0, .null⟩, sessPop sessions sessionId, true⟩
      else
        match connRead with
        | .error e => ⟨⟨500, errJson e⟩, sessPop sessions sessionId, true⟩
        | .ok fr =>
          match fr with
          | .obj fields =>
            ⟨⟨if jsonIsStr (jmemGet fields "status") "DONE" then 200 else 500,
              .obj (.cons "status" ((jmemGet fields "status").getD (.str "ERROR"))
                (.cons "saved_as" ((jmemGet fields "saved_as").getD .null)
                (.cons "bytes_received" ((jmemGet fields "bytes_received").getD .null)
                (.cons "message" ((jmemGet fields "message").getD (.str "OK"))
                (.cons "renamed" ((jmemGet fields "renamed").getD (.bool false)) .nil)))))⟩,
              sessPop sessions sessionId, true⟩
          | _ => ⟨⟨500, errJson "AttributeError: get"⟩, sessPop sessions sessionId, true⟩

/-- Embedding of `Handler.handle_cancel`. -/
def handle_cancel (sessions : Sessions) (sessionId : String) : HttpResp × Sessions :=
  if sessionId = "" then (⟨400, errJson "Missing session id"⟩, sessions)
  else
    match sessGet sessions sessionId with
    | none => (⟨200, okMsg "No session"⟩, sessions)
    | some _ => (⟨200, okMsg "Canceled"⟩, sessPop sessions sessionId)

/-- Parsed value of the `Content-Length` header as `handle_chunk`
computes it (`int(content_length or "0")`). -/
def contentLengthVal (contentLength : Option String) : Option Int :=
  pyParseInt (match contentLength with
    | none => "0"
    | some s => if s = "" then "0" else s)

/-- One relay endpoint invocation together with its oracle inputs. -/
inductive RelayOp where
  | opBegin (host portStr filename : String) (xFilesize : Option String)
      (connResult : Except String Json) (newId : String)
  | opChunk (sessionId : String) (contentLength : Option String) (body : List Nat)
  | opEnd (sessionId : String) (connRead : Except String Json)
  | opCancel (sessionId : String)

/-- Effect of one invocation on the session table. -/
def relayStep (s : Sessions) : RelayOp → Sessions
  | .opBegin h p fn xfs cr nid => (handle_begin s h p fn xfs cr nid).sessions
  | .opChunk i cl b => (handle_chunk s i cl b).sessions
  | .opEnd i cr => (handle_end s i cr).sessions
  | .opCancel i => (handle_cancel s i).2

/-- Table after a sequence of invocations. -/
def relayRun (s : Sessions) (ops : List RelayOp) : Sessions := ops.foldl relayStep s

/-- The conservation invariant of the data model: every stored session
has `0 ≤ bytes_forwarded ≤ declared_size`. -/
def SessionsInv (s : Sessions) : Prop :=
  ∀ kv ∈ s, 0 ≤ kv.2.received ∧ kv.2.received ≤ kv.2.filesize

/-- A chunk invocation whose declared payload size is non-negative (any
declared size an actual HTTP payload can have); other invocations
vacuously qualify. -/
def chunkNonNeg : RelayOp → Prop
  | .opChunk _ cl _ => ∀ n, contentLengthVal cl = some n → 0 ≤ n
  | _ => True

theorem mem_sessPop {s : Sessions} {i : String} {kv : String × Session}
    (h : kv ∈ sessPop s i) : kv ∈ s := (List.mem_filter.mp h).1

theorem mem_sessSet {s : Sessions} {i : String} {v : Session} {kv : String × Session}
    (h : kv ∈ sessSet s i v) : kv = (i, v) ∨ kv ∈ s := by
  rcases List.mem_cons.mp h with h | h
  · exact Or.inl h
  · exact Or.inr (mem_sessPop h)

theorem sessGet_mem {s : Sessions} {i : String} {v : Session}
    (h : sessGet s i = some v) : (i, v) ∈ s := by
  induction s with
  | nil => simp [sessGet] at h
  | cons e t ih =>
    match e with
    | (k, w) =>
      by_cases hk : k = i
      · subst hk
        simp [sessGet] at h
        subst h
        simp
      · simp only [sessGet, hk, if_false] at h
        exact List.mem_cons_of_mem _ (ih h)

theorem sessGet_sessSet (s : Sessions) (i : String) (v : Session) :
    sessGet (sessSet s i v) i = some v := by
  simp [sessSet, sessGet]

/-- The table `handle_begin` leaves behind: unchanged, or extended by a
fresh session with zero forwarded bytes and positive declared size. -/
theorem handle_begin_sessions (s : Sessions) (h p fn : String) (xfs : Option String)
    (cr : Except String Json) (nid : String) :
    (handle_begin s h p fn xfs cr nid).sessions = s ∨
    ∃ size saveAs, 0 < size ∧
      (handle_begin s h p fn xfs cr nid).sessions = sessSet s nid ⟨size, 0, saveAs⟩ := by
  simp only [handle_begin]
  split
  · exact Or.inl rfl
  · split
    · exact Or.inl rfl
    · split
      · exact Or.inl rfl
      · next hsize =>
        split
        · exact Or.inl rfl
        · split
          · split
            · exact Or.inr ⟨_, _, by omega, rfl⟩
            · exact Or.inl rfl
          · exact Or.inl rfl

/-- The table `handle_chunk` leaves behind: unchanged, the session
dropped, or the session's forwarded count advanced by a declared size
that fit in the remaining budget. -/
theorem handle_chunk_sessions (s : Sessions) (i : String) (cl : Option String)
    (b : List Nat) :
    (handle_chunk s i cl b).sessions = s ∨
    (handle_chunk s i cl b).sessions = sessPop s i ∨
    ∃ sess n, sessGet s i = some sess ∧ contentLengthVal cl = some n ∧
      ¬ n > sess.filesize - sess.received ∧
      (handle_chunk s i cl b).sessions =
        sessSet s i { sess with received := sess.received + n } := by
  simp only [handle_chunk]
  split
  · exact Or.inl rfl
  · next hid =>
    have hcl : pyParseInt (match cl with
        | none => "0"
        | some s => if s = "" then "0" else s) = contentLengthVal cl := rfl
    split
    · exact Or.inl rfl
    · next n hn =>
      split
      · exact Or.inl rfl
      · next sess hsess =>
        split
        · exact Or.inl rfl
        · next hfit =>
          split
          · exact Or.inr (Or.inl rfl)
          · exact Or.inr (Or.inr ⟨sess, n, hsess, by rw [← hcl, hn], hfit, rfl⟩)

theorem handle_end_sessions (s : Sessions) (i : String) (cr : Except String Json) :
    (handle_end s i cr).sessions = s ∨ (handle_end s i cr).sessions = sessPop s i := by
  simp only [handle_end]
  split
  · exact Or.inl rfl
  · split
    · exact Or.inl rfl
    · split
      · split
        · exact Or.inr rfl
        · exact Or.inr rfl
      · split
        · exact Or.inr rfl
        · split
          · exact Or.inr rfl
          · exact Or.inr rfl

theorem handle_cancel_sessions (s : Sessions) (i : String) :
    (handle_cancel s i).2 = s ∨ (handle_cancel s i).2 = sessPop s i := by
  simp only [handle_cancel]
  split
  · exact Or.inl rfl
  · split
    · exact Or.inl rfl
    · exact Or.inr rfl

/-- One invocation with a non-negative declared chunk size preserves the
conservation invariant. -/
theorem relayStep_inv (s : Sessions) (op : RelayOp) (hinv : SessionsInv s)
    (hop : chunkNonNeg op) : SessionsInv (relayStep s op) := by
  cases op with
  | opBegin h p fn xfs cr nid =>
    rcases handle_begin_sessions s h p fn xfs cr nid with he | ⟨size, saveAs, hpos, he⟩
    · rw [relayStep, he]; exact hinv
    · rw [relayStep, he]
      intro kv hkv
      rcases mem_sessSet hkv with rfl | hkv
      · exact ⟨le_refl _, by simpa using le_of_lt hpos⟩
      · exact hinv kv hkv
  | opChunk i cl b =>
    rcases handle_chunk_sessions s i cl b with he | he | ⟨sess, n, hget, hcl, hfit, he⟩
    · rw [relayStep, he]; exact hinv
    · rw [relayStep, he]
      intro kv hkv
      exact hinv kv (mem_sessPop hkv)
    · rw [relayStep, he]
      intro kv hkv
      have hn : 0 ≤ n := hop n hcl
      have hs : 0 ≤ sess.received ∧ sess.received ≤ sess.filesize :=
        hinv (i, sess) (sessGet_mem hget)
      rcases mem_sessSet hkv with rfl | hkv
      · constructor
        · simp only []
          omega
        · simp only []
          omega
      · exact hinv kv hkv
  | opEnd i cr =>
    rcases handle_end_sessions s i cr with he | he <;> rw [relayStep, he]
    · exact hinv
    · intro kv hkv
      exact hinv kv (mem_sessPop hkv)
  | opCancel i =>
    rcases handle_cancel_sessions s i with he | he <;> rw [relayStep, he]
    · exact hinv
    · intro kv hkv
      exact hinv kv (mem_sessPop hkv)

/-- The invariant holds after any sequence of invocations whose chunk
sizes are non-negative, starting from any invariant-satisfying table. -/
theorem relayRun_inv (ops : List RelayOp) (s : Sessions) (hinv : SessionsInv s)
    (hops : ∀ op ∈ ops, chunkNonNeg op) : SessionsInv (relayRun s ops) := by
  induction ops generalizing s with
  | nil => exact hinv
  | cons op rest ih =>
    exact ih (relayStep s op) (relayStep_inv s op hinv (hops op (by simp)))
      (fun o ho => hops o (by simp [ho]))

theorem natRepr_ne_empty (n : Nat) : natRepr n ≠ "" := by
  intro h
  have : natDigits n = [] := by
    have := congrArg String.data h
    simpa [natRepr] using this
  exact natDigits_ne_nil n this

/-- The browser's `sendFile` loop (INDEX_HTML, `http_frontend.py` lines
263-278) as the relay sees it: one `/chunk` call per slice, each awaited
before the next, `Content-Length` equal to the slice size, stopping at
the first non-OK response.  Returns the final table, whether every call
succeeded, and the concatenation of all bytes forwarded to the
receiver. -/
def relaySendChunks (s : Sessions) (sid : String) :
    List (List Nat) → Sessions × Bool × List Nat
  | [] => (s, true, [])
  | c :: rest =>
    let r := handle_chunk s sid (some (natRepr c.length)) c
    if r.resp.code = 200 then
      let rec2 := relaySendChunks r.sessions sid rest
      (rec2.1, rec2.2.1, r.forwarded ++ rec2.2.2)
    else (r.sessions, false, r.forwarded)

theorem relaySendChunks_all_ok (sid : String) (hsid : sid ≠ "") :
    ∀ (chunks : List (List Nat)) (s : Sessions) (size rec : Int) (sv : Json),
    sessGet s sid = some ⟨size, rec, sv⟩ →
    rec + (chunks.map (fun c => ((c.length : Nat) : Int))).sum ≤ size →
    ∃ s', relaySendChunks s sid chunks = (s', true, chunks.join) ∧
      sessGet s' sid =
        some ⟨size, rec + (chunks.map (fun c => ((c.length : Nat) : Int))).sum, sv⟩ := by
  intro chunks
  induction chunks with
  | nil =>
    intro s size rec sv hget hsum
    refine ⟨s, by simp [relaySendChunks], ?_⟩
    simpa using hget
  | cons c rest ih =>
    intro s size rec sv hget hsum
    have hsum_rest_nonneg : 0 ≤ (rest.map (fun c => ((c.length : Nat) : Int))).sum :=
      List.sum_nonneg (by
        intro x hx
        rw [List.mem_map] at hx
        obtain ⟨y, _, rfl⟩ := hx
        positivity)
    have hsum_cons : (List.map (fun c => ((c.length : Nat) : Int)) (c :: rest)).sum =
        (c.length : Int) + (rest.map (fun c => ((c.length : Nat) : Int))).sum := by
      simp
    rw [hsum_cons] at hsum
    have hchunk : handle_chunk s sid (some (natRepr c.length)) c =
        ⟨⟨200, .obj (.cons "status" (.str "OK")
            (.cons "received" (.int (rec + (c.length : Int)))
            (.cons "remaining" (.int (size - (rec + (c.length : Int)))) .nil)))⟩,
          sessSet s sid ⟨size, rec + (c.length : Int), sv⟩,
          c.take ((c.length : Int)).toNat⟩ := by
      unfold handle_chunk
      rw [if_neg hsid]
      have hcls : (match some (natRepr c.length) with
          | none => "0"
          | some s => if s = "" then "0" else s) = natRepr c.length := by
        simp [natRepr_ne_empty]
      rw [hcls]
      simp only [pyParseInt_natRepr, hget]
      rw [if_neg (by omega)]
      rw [if_neg (by omega)]
    have htake : c.take ((c.length : Int)).toNat = c := by
      simp
    obtain ⟨s', hrun, hget'⟩ := ih (sessSet s sid ⟨size, rec + (c.length : Int), sv⟩)
      size (rec + (c.length : Int)) sv (sessGet_sessSet _ _ _) (by omega)
    refine ⟨s', ?_, ?_⟩
    · show (let r := handle_chunk s sid (some (natRepr c.length)) c;
        if r.resp.code = 200 then
          let rec2 := relaySendChunks r.sessions sid rest
          (rec2.1, rec2.2.1, r.forwarded ++ rec2.2.2)
        else (r.sessions, false, r.forwarded)) = (s', true, (c :: rest).join)
      rw [hchunk]
      simp only [if_pos rfl]
      rw [hrun, htake]
      simp
    · rw [hget']
      congr 2
      simp
      ring

/-- Successful `begin`: valid host and port, a positive rendered size,
and an OK acceptance from the receiver create exactly one fresh session
with zero forwarded bytes. -/
theorem handle_begin_ok (s : Sessions) (fn : String) (size : Nat) (hpos : 1 ≤ size)
    (saveName : String) (nid : String) :
    handle_begin s "127.0.0.1" "5001" fn (some (natRepr size)) (.ok (acceptJson saveName))
        nid =
      ⟨⟨200, .obj (.cons "status" (.str "OK") (.cons "session_id" (.str nid)
          (.cons "save_as" (if jsonTruthy (.str saveName) then Json.str saveName
            else .str fn) .nil)))⟩,
        sessSet s nid ⟨(size : Int), 0,
          if jsonTruthy (.str saveName) then Json.str saveName else .str fn⟩, true⟩ := by
  unfold handle_begin
  rw [show pyParseInt "5001" = some 5001 from by decide]
  have hcond1 : ¬ (("127.0.0.1" : String) = "" ∨
      ¬ (1 ≤ (5001 : Int) ∧ (5001 : Int) ≤ 65535)) := by simp
  have hcond2 : ¬ ((size : Int) ≤ 0) := by omega
  simp only [Option.getD_some, pyParseInt_natRepr, if_neg hcond1, if_neg hcond2]
  simp [acceptJson, jmemGet, jsonIsStr]

/-- Successful `end`: with the declared size reached, the relay reads one
completion message shaped like the receiver's `DONE` and returns its
fields with HTTP 200, then discards the session and closes. -/
theorem handle_end_done (s : Sessions) (sid : String) (hsid : sid ≠ "")
    (size : Int) (sv : Json) (hget : sessGet s sid = some ⟨size, size, sv⟩)
    (saveName : String) (renamed : Bool) :
    handle_end s sid (.ok (doneJson saveName size renamed)) =
      ⟨⟨200, .obj (.cons "status" (.str "DONE")
          (.cons "saved_as" (.str saveName)
          (.cons "bytes_received" (.int size)
          (.cons "message" (.str "Received successfully")
          (.cons "renamed" (.bool renamed) .nil)))))⟩,
        sessPop s sid, true⟩ := by
  unfold handle_end
  rw [if_neg hsid]
  simp [hget, doneJson, jmemGet, jsonIsStr]

theorem sessGet_sessPop_self (s : Sessions) (i : String) :
    sessGet (sessPop s i) i = none := by
  induction s with
  | nil => rfl
  | cons e t ih =>
    obtain ⟨k, v⟩ := e
    by_cases hk : k = i
    · subst hk
      simp only [sessPop, List.filter_cons] at ih ⊢
      simpa using ih
    · simp only [sessPop, List.filter_cons] at ih ⊢
      simp only [ne_eq, decide_not] at ih ⊢
      simp [hk, sessGet, ih]

theorem fsGet_fsWrite (fs : FS) (p : String) (v : List Nat) :
    fsGet (fsWrite fs p v) p = some v := by
  simp [fsGet, fsWrite]

theorem sum_int_lengths (chunks : List (List Nat)) :
    (chunks.map (fun c => ((c.length : Nat) : Int))).sum = (chunks.join.length : Int) := by
  induction chunks with
  | nil => simp
  | cons c rest ih => simp [ih]

/-! ### The claims -/

/-- C4: the Filename Resolver returns `(directory/requested_name,
renamed=false)` when that path does not exist; when it exists it returns
`stem (N)ext` for the smallest `N ≥ 1` whose path does not exist, with
`renamed=true`; and in either case the returned path is distinct from
every existing file. -/
theorem C4_filename_resolver (fs : FS) (dir name : String) :
    fsExists fs (unique_save_path fs dir name).1 = false ∧
    (if fsExists fs (joinPath dir name) then
      ∃ N, 1 ≤ N ∧
        unique_save_path fs dir name =
          (renameCandidate dir (splitext name).1 (splitext name).2 N, true) ∧
        fsExists fs (renameCandidate dir (splitext name).1 (splitext name).2 N) = false ∧
        ∀ M, 1 ≤ M → M < N →
          fsExists fs (renameCandidate dir (splitext name).1 (splitext name).2 M) = true
    else unique_save_path fs dir name = (joinPath dir name, false)) := by
  by_cases h : fsExists fs (joinPath dir name)
  · have hex : ∃ c, 1 ≤ c ∧
        fsExists fs (renameCandidate dir (splitext name).1 (splitext name).2 c) = false := by
      obtain ⟨c, h1, _, h3⟩ := exists_free_counter fs dir (splitext name).1 (splitext name).2
      exact ⟨c, h1, h3⟩
    obtain ⟨w, hw1, hw2, hw3⟩ := exists_free_counter fs dir (splitext name).1 (splitext name).2
    have hN := Nat.find_spec hex
    set N := Nat.find hex with hNdef
    have hNle : N ≤ w := Nat.find_min' hex ⟨hw1, hw3⟩
    have hleast : ∀ M, 1 ≤ M → M < N →
        fsExists fs (renameCandidate dir (splitext name).1 (splitext name).2 M) = true := by
      intro M h1 h2
      have := Nat.find_min hex h2
      by_cases hb : fsExists fs (renameCandidate dir (splitext name).1 (splitext name).2 M)
      · exact hb
      · exact absurd ⟨h1, by simpa using hb⟩ this
    have hloop := uniqueLoop_finds fs dir (splitext name).1 (splitext name).2
      (fs.length + 1) 1 N hN.1 hN.2 (fun c h1 h2 => hleast c h1 h2) (by omega)
    have hval : unique_save_path fs dir name =
        (renameCandidate dir (splitext name).1 (splitext name).2 N, true) := by
      unfold unique_save_path
      rw [if_pos h, hloop]
    refine ⟨?_, ?_⟩
    · rw [hval]
      exact hN.2
    · rw [if_pos h]
      exact ⟨N, hN.1, hval, hN.2, hleast⟩
  · have hval : unique_save_path fs dir name = (joinPath dir name, false) := by
      unfold unique_save_path
      rw [if_neg h]
    constructor
    · rw [hval]
      simpa using h
    · rw [if_neg h]
      exact hval

/-- C6: the codec emits an eight-byte big-endian length prefix whose
value is the byte length of the UTF-8 JSON body it precedes, and decoding
a sent frame recovers exactly the sent message. -/
theorem C6_frame_codec_roundtrip (m : Json) (h : (dumpJson m).length < 2 ^ 64) :
    send_json m =
      pack_length (asciiEncode (dumpJson m)).length ++ asciiEncode (dumpJson m) ∧
    (pack_length (asciiEncode (dumpJson m)).length).length = 8 ∧
    unpack_length (pack_length (asciiEncode (dumpJson m)).length) =
      (asciiEncode (dumpJson m)).length ∧
    recv_json (send_json m) = .ok (m, []) := by
  refine ⟨rfl, pack_length_length _, ?_, ?_⟩
  · exact unpack_length_pack_length _ (by simpa [asciiEncode] using h)
  · have := recv_json_send_json m [] h
    simpa using this

/-- Witness for C6 at a concrete header message. -/
theorem C6_frame_codec_roundtrip_witness :
    recv_json (send_json (headerJson "a.txt" 3)) = .ok (headerJson "a.txt" 3, []) :=
  (C6_frame_codec_roundtrip (headerJson "a.txt" 3) (by decide)).2.2.2

/-- C3: a header whose filesize is negative, or exceeds the 2 GiB limit,
or whose filename contains the path separator, makes the receiver reply
with an ERROR message carrying a reason, create no file, and close the
connection. -/
theorem C3_receiver_rejects_invalid_header (fs : FS) (fn : String) (size : Int)
    (body : List Nat)
    (hdump : (dumpJson (headerJson fn size)).length < 2 ^ 64)
    (hbad : size < 0 ∨ size > MAX_FILE_SIZE_BYTES ∨ '/' ∈ fn.data) :
    ∃ msg, handle_client fs (send_json (headerJson fn size) ++ body) =
      ⟨[errJson msg], fs, true⟩ := by
  have hv : ∃ msg, validate_request (.str fn) size = .ok (false, msg) := by
    unfold validate_request
    rcases hbad with h | h | h
    · rw [if_pos h]
      exact ⟨_, rfl⟩
    · by_cases h0 : size < 0
      · rw [if_pos h0]
        exact ⟨_, rfl⟩
      · rw [if_neg h0, if_pos h]
        exact ⟨_, rfl⟩
    · by_cases h0 : size < 0
      · rw [if_pos h0]
        exact ⟨_, rfl⟩
      · by_cases h1 : size > MAX_FILE_SIZE_BYTES
        · rw [if_neg h0, if_pos h1]
          exact ⟨_, rfl⟩
        · rw [if_neg h0, if_neg h1]
          simp only [if_pos h]
          exact ⟨_, rfl⟩
  obtain ⟨msg, hv⟩ := hv
  exact ⟨msg, handle_client_rejected fs fn size body msg hv hdump⟩

/-- Witness for C3: a negative declared filesize is rejected. -/
theorem C3_receiver_rejects_invalid_header_witness :
    ∃ msg, handle_client [] (send_json (headerJson "a.txt" (-1)) ++ []) =
      ⟨[errJson msg], [], true⟩ :=
  C3_receiver_rejects_invalid_header [] "a.txt" (-1) [] (by decide) (Or.inl (by decide))

/-- C7 counterexample: on a frame whose body is not valid JSON the
receiver's `except` arm still attempts to send an ERROR message, so the
claim that no further write is attempted on the connection fails. -/
theorem C7_counterexample :
    handle_client [] (pack_length 1 ++ [120]) =
      ⟨[errJson "JSONDecodeError"], [], true⟩ := rfl

/-- C7 amended: on any stream whose header frame fails to decode
(truncated read or malformed JSON body), the receiver attempts exactly
one framed ERROR message, touches no file, and closes the connection. -/
theorem C7_amended_error_path (fs : FS) (stream : List Nat) (e : String)
    (h : recv_json stream = .error e) :
    handle_client fs stream = ⟨[errJson e], fs, true⟩ :=
  handle_client_recv_error fs stream e h

/-- Witness for the amended C7 on a truncated header prefix. -/
theorem C7_amended_error_path_witness :
    handle_client [] [0, 0, 0] =
      ⟨[errJson "Connection closed while reading"], [], true⟩ :=
  C7_amended_error_path [] [0, 0, 0] "Connection closed while reading" rfl

/-- C8: when an accepted transfer's connection closes before the declared
count of payload bytes arrives, the partially written file at the
resolved path remains on disk holding exactly the bytes that arrived, the
rest of the filesystem is untouched, and the receiver sends the
acceptance message followed by an ERROR — never a DONE completion. -/
theorem C8_partial_file_remains (fs : FS) (fn : String) (size : Int) (body : List Nat)
    (hsep : '/' ∉ fn.data) (h0 : 0 ≤ size) (hmax : size ≤ MAX_FILE_SIZE_BYTES)
    (hdump : (dumpJson (headerJson fn size)).length < 2 ^ 64)
    (hshort : (body.length : Int) < size) :
    handle_client fs (send_json (headerJson fn size) ++ body) =
      ⟨[acceptJson (basename (unique_save_path fs RECEIVE_DIR fn).1),
        errJson "Connection closed during file transfer"],
        fsWrite fs (unique_save_path fs RECEIVE_DIR fn).1 body, true⟩ ∧
    fsGet (fsWrite fs (unique_save_path fs RECEIVE_DIR fn).1 body)
        (unique_save_path fs RECEIVE_DIR fn).1 = some body := by
  have hlt : body.length < size.toNat := by omega
  have hloop : recvLoop body size.toNat = ⟨body, false, []⟩ :=
    recvLoop_short body size.toNat hlt
  have hmain := handle_client_accepted fs fn size body hsep h0 hmax hdump
  rw [hloop] at hmain
  simp only [Bool.false_eq_true, if_false] at hmain
  exact ⟨hmain, fsGet_fsWrite _ _ _⟩

/-- Witness for C8: a five-byte transfer interrupted after two bytes. -/
theorem C8_partial_file_remains_witness :
    handle_client [] (send_json (headerJson "a.txt" 5) ++ [1, 2]) =
      ⟨[acceptJson (basename (unique_save_path [] RECEIVE_DIR "a.txt").1),
        errJson "Connection closed during file transfer"],
        fsWrite [] (unique_save_path [] RECEIVE_DIR "a.txt").1 [1, 2], true⟩ ∧
    fsGet (fsWrite [] (unique_save_path [] RECEIVE_DIR "a.txt").1 [1, 2])
        (unique_save_path [] RECEIVE_DIR "a.txt").1 = some [1, 2] :=
  C8_partial_file_remains [] "a.txt" 5 [1, 2] (by decide) (by decide) (by decide)
    (by decide) (by decide)

/-- C2 counterexample: `int(content_length or "0")` accepts a negative
`Content-Length`; a chunk declaring `-3` passes the remaining-bytes guard,
is accepted with HTTP 200, and drives the stored `received` negative, so
`0 ≤ bytes_forwarded` fails after a begin/chunk sequence. -/
theorem C2_counterexample :
    ¬ SessionsInv (relayRun []
      [.opBegin "127.0.0.1" "5001" "a.txt" (some "5") (.ok (acceptJson "a.txt")) "sid",
       .opChunk "sid" (some "-3") []]) := by
  intro hinv
  have hrun : relayRun []
      [RelayOp.opBegin "127.0.0.1" "5001" "a.txt" (some "5") (.ok (acceptJson "a.txt")) "sid",
       RelayOp.opChunk "sid" (some "-3") []] =
      [("sid", ⟨5, -3, Json.str "a.txt"⟩)] := rfl
  rw [hrun] at hinv
  have h := hinv ("sid", ⟨5, -3, Json.str "a.txt"⟩) (List.mem_singleton.mpr rfl)
  exact absurd h.1 (by decide)

/-- C2 amended: a chunk whose declared size exceeds the remaining bytes
is rejected with an error and the table (hence `bytes_forwarded`) is
unchanged; and over every operation sequence whose chunk calls declare
non-negative sizes, every stored session keeps
`0 ≤ bytes_forwarded ≤ declared_size`. -/
theorem C2_amended_conservation :
    (∀ (s : Sessions) (sid : String) (cl : Option String) (body : List Nat)
        (sess : Session) (n : Int),
      sid ≠ "" → sessGet s sid = some sess → contentLengthVal cl = some n →
      n > sess.filesize - sess.received →
      handle_chunk s sid cl body =
        ⟨⟨400, errJson "Chunk exceeds remaining bytes"⟩, s, []⟩) ∧
    (∀ (ops : List RelayOp) (s : Sessions), SessionsInv s →
      (∀ op ∈ ops, chunkNonNeg op) → SessionsInv (relayRun s ops)) := by
  constructor
  · intro s sid cl body sess n hsid hget hcl hover
    simp only [contentLengthVal] at hcl
    simp only [handle_chunk, if_neg hsid, hcl, hget, if_pos hover]
  · exact fun ops s h1 h2 => relayRun_inv ops s h1 h2

/-- Witness for the amended C2: an oversized chunk is rejected leaving a
concrete table unchanged, and the invariant survives a concrete run. -/
theorem C2_amended_conservation_witness :
    handle_chunk [("s", ⟨5, 2, Json.null⟩)] "s" (some "4") [] =
      ⟨⟨400, errJson "Chunk exceeds remaining bytes"⟩, [("s", ⟨5, 2, Json.null⟩)], []⟩ ∧
    SessionsInv (relayRun [("s", ⟨5, 2, Json.null⟩)]
      [RelayOp.opChunk "s" (some "1") [9]]) := by
  constructor
  · exact C2_amended_conservation.1 [("s", ⟨5, 2, Json.null⟩)] "s" (some "4") []
      ⟨5, 2, Json.null⟩ 4 (by decide) rfl rfl (by decide)
  · refine C2_amended_conservation.2 [RelayOp.opChunk "s" (some "1") [9]]
      [("s", ⟨5, 2, Json.null⟩)] ?_ ?_
    · intro kv hkv
      rw [List.mem_singleton] at hkv
      subst hkv
      exact ⟨by decide, by decide⟩
    · intro op hop
      rw [List.mem_singleton] at hop
      subst hop
      intro n hn
      have h1 : n = 1 := by
        rw [show contentLengthVal (some "1") = some 1 from rfl] at hn
        exact (Option.some_inj.mp hn).symm
      omega

/-- C5: on a live session, `end` with `received ≠ filesize` answers with
the mismatch error (HTTP 400, or no response when the receiver's reply is
not an object); with `received = filesize` it blocks on the receiver's
`DONE` completion and returns its fields with HTTP 200; and in every case
on a live session the session is removed and the connection closed. -/
theorem C5_end_call_semantics :
    (∀ (s : Sessions) (sid : String) (sess : Session) (cr : Except String Json),
      sid ≠ "" → sessGet s sid = some sess → sess.received ≠ sess.filesize →
      ((handle_end s sid cr).resp.code = 400 ∨ (handle_end s sid cr).resp.code = 0)) ∧
    (∀ (s : Sessions) (sid : String) (size : Int) (sv : Json) (saveName : String)
        (renamed : Bool),
      sid ≠ "" → sessGet s sid = some ⟨size, size, sv⟩ →
      handle_end s sid (.ok (doneJson saveName size renamed)) =
        ⟨⟨200, .obj (.cons "status" (.str "DONE")
            (.cons "saved_as" (.str saveName)
            (.cons "bytes_received" (.int size)
            (.cons "message" (.str "Received successfully")
            (.cons "renamed" (.bool renamed) .nil)))))⟩,
          sessPop s sid, true⟩) ∧
    (∀ (s : Sessions) (sid : String) (sess : Session) (cr : Except String Json),
      sid ≠ "" → sessGet s sid = some sess →
      (handle_end s sid cr).sessions = sessPop s sid ∧
      (handle_end s sid cr).closedConn = true) := by
  refine ⟨?_, ?_, ?_⟩
  · intro s sid sess cr hsid hget hne
    unfold handle_end
    rw [if_neg hsid]
    simp only [hget]
    rw [if_pos hne]
    cases cr with
    | error e => simp [errJson]
    | ok r => cases r <;> simp
  · intro s sid size sv saveName renamed hsid hget
    exact handle_end_done s sid hsid size sv hget saveName renamed
  · intro s sid sess cr hsid hget
    unfold handle_end
    rw [if_neg hsid]
    simp only [hget]
    by_cases hne : sess.received ≠ sess.filesize
    · rw [if_pos hne]
      cases cr with
      | error e => simp [errJson]
      | ok r => cases r <;> simp
    · rw [if_neg hne]
      cases cr with
      | error e => simp
      | ok r => cases r <;> simp

/-- Witness for C5 on concrete sessions: a short transfer's `end` fails,
a completed one returns the `DONE` fields, and both pop and close. -/
theorem C5_end_call_semantics_witness :
    ((handle_end [("s", ⟨5, 3, Json.null⟩)] "s" (.error "boom")).resp.code = 400 ∨
      (handle_end [("s", ⟨5, 3, Json.null⟩)] "s" (.error "boom")).resp.code = 0) ∧
    handle_end [("s", ⟨5, 5, Json.null⟩)] "s" (.ok (doneJson "a.txt" 5 false)) =
      ⟨⟨200, .obj (.cons "status" (.str "DONE")
          (.cons "saved_as" (.str "a.txt")
          (.cons "bytes_received" (.int 5)
          (.cons "message" (.str "Received successfully")
          (.cons "renamed" (.bool false) .nil)))))⟩,
        sessPop [("s", ⟨5, 5, Json.null⟩)] "s", true⟩ ∧
    ((handle_end [("s", ⟨5, 3, Json.null⟩)] "s" (.error "boom")).sessions =
        sessPop [("s", ⟨5, 3, Json.null⟩)] "s" ∧
      (handle_end [("s", ⟨5, 3, Json.null⟩)] "s" (.error "boom")).closedConn = true) :=
  ⟨C5_end_call_semantics.1 _ "s" ⟨5, 3, Json.null⟩ _ (by decide) rfl (by decide),
   C5_end_call_semantics.2.1 _ "s" 5 Json.null "a.txt" false (by decide) rfl,
   C5_end_call_semantics.2.2 _ "s" ⟨5, 3, Json.null⟩ _ (by decide) rfl⟩

/-- C9 counterexample: cancel with an empty session identifier answers
HTTP 400 with an ERROR body, not success, so the claim does not hold for
every identifier. -/
theorem C9_counterexample :
    handle_cancel [] "" = (⟨400, errJson "Missing session id"⟩, []) := rfl

/-- C9 amended: for every non-empty session identifier — unknown, already
canceled, or completed alike — cancel reports success with an OK body,
a second cancel also reports success, and the second call leaves the
table unchanged. -/
theorem C9_amended_cancel_idempotent (s : Sessions) (sid : String) (hsid : sid ≠ "") :
    (∃ m, (handle_cancel s sid).1 = ⟨200, okMsg m⟩) ∧
    (∃ m, (handle_cancel (handle_cancel s sid).2 sid).1 = ⟨200, okMsg m⟩) ∧
    (handle_cancel (handle_cancel s sid).2 sid).2 = (handle_cancel s sid).2 := by
  cases hget : sessGet s sid with
  | none =>
    have h1 : handle_cancel s sid = (⟨200, okMsg "No session"⟩, s) := by
      unfold handle_cancel
      rw [if_neg hsid]
      simp [hget]
    exact ⟨⟨"No session", by simp [h1]⟩, ⟨"No session", by simp [h1]⟩, by simp [h1]⟩
  | some v =>
    have h1 : handle_cancel s sid = (⟨200, okMsg "Canceled"⟩, sessPop s sid) := by
      unfold handle_cancel
      rw [if_neg hsid]
      simp [hget]
    have h2 : handle_cancel (sessPop s sid) sid = (⟨200, okMsg "No session"⟩, sessPop s sid) := by
      unfold handle_cancel
      rw [if_neg hsid]
      simp [sessGet_sessPop_self]
    exact ⟨⟨"Canceled", by simp [h1]⟩, ⟨"No session", by simp [h1, h2]⟩, by simp [h1, h2]⟩

/-- Witness for the amended C9 at a concrete one-session table. -/
theorem C9_amended_cancel_idempotent_witness :
    (∃ m, (handle_cancel [("a", ⟨1, 0, Json.null⟩)] "a").1 = ⟨200, okMsg m⟩) ∧
    (∃ m, (handle_cancel (handle_cancel [("a", ⟨1, 0, Json.null⟩)] "a").2 "a").1 =
      ⟨200, okMsg m⟩) ∧
    (handle_cancel (handle_cancel [("a", ⟨1, 0, Json.null⟩)] "a").2 "a").2 =
      (handle_cancel [("a", ⟨1, 0, Json.null⟩)] "a").2 :=
  C9_amended_cancel_idempotent [("a", ⟨1, 0, Json.null⟩)] "a" (by decide)

/-- C10: whenever the declared filesize the relay computes from the
`X-Filesize` header (missing or non-integer treated as `-1`) is at most
zero, `begin` answers HTTP 400, never reaches the connection attempt, and
creates no session — the result does not even depend on the connection
oracle — although the receiver's own validation accepts a filesize of
zero for any separator-free name. -/
theorem C10_begin_rejects_nonpositive_size (s : Sessions) (host portStr fn : String)
    (xfs : Option String) (cr1 cr2 : Except String Json) (nid : String)
    (hsize : (pyParseInt (xfs.getD "")).getD (-1) ≤ 0) :
    (handle_begin s host portStr fn xfs cr1 nid).connected = false ∧
    (handle_begin s host portStr fn xfs cr1 nid).sessions = s ∧
    (handle_begin s host portStr fn xfs cr1 nid).resp.code = 400 ∧
    handle_begin s host portStr fn xfs cr1 nid = handle_begin s host portStr fn xfs cr2 nid ∧
    (∀ fn2 : String, '/' ∉ fn2.data → validate_request (.str fn2) 0 = .ok (true, "OK")) := by
  have hval : ∀ fn2 : String, '/' ∉ fn2.data →
      validate_request (.str fn2) 0 = .ok (true, "OK") := by
    intro fn2 h2
    unfold validate_request
    rw [if_neg (by omega), if_neg (by decide)]
    simp [h2]
  unfold handle_begin
  cases hp : pyParseInt portStr with
  | none => exact ⟨rfl, rfl, rfl, rfl, hval⟩
  | some port =>
    by_cases hh : host = "" ∨ ¬ (1 ≤ port ∧ port ≤ 65535)
    · simp only [if_pos hh]
      exact ⟨trivial, trivial, trivial, trivial, hval⟩
    · simp only [if_neg hh, if_pos hsize]
      exact ⟨trivial, trivial, trivial, trivial, hval⟩

/-- Witness for C10 at a declared filesize of exactly zero: rejected the
same way whether the connection oracle would succeed or fail. -/
theorem C10_begin_rejects_nonpositive_size_witness :
    (handle_begin [] "127.0.0.1" "5001" "a.txt" (some "0") (.ok Json.null)
        "sid").connected = false ∧
    (handle_begin [] "127.0.0.1" "5001" "a.txt" (some "0") (.ok Json.null)
        "sid").sessions = [] ∧
    (handle_begin [] "127.0.0.1" "5001" "a.txt" (some "0") (.ok Json.null)
        "sid").resp.code = 400 ∧
    handle_begin [] "127.0.0.1" "5001" "a.txt" (some "0") (.ok Json.null) "sid" =
      handle_begin [] "127.0.0.1" "5001" "a.txt" (some "0") (.error "down") "sid" ∧
    (∀ fn2 : String, '/' ∉ fn2.data → validate_request (.str fn2) 0 = .ok (true, "OK")) :=
  C10_begin_rejects_nonpositive_size [] "127.0.0.1" "5001" "a.txt" (some "0")
    (.ok Json.null) (.error "down") "sid" (by decide)

/-- C1 counterexample: a zero-byte transfer has a non-negative filesize
and an empty payload matching it, yet the relay's `begin` rejects it with
HTTP 400 before contacting the receiver, so no file is produced and no
DONE completion is ever returned. -/
theorem C1_counterexample :
    handle_begin [] "127.0.0.1" "5001" "a.txt" (some "0") (.ok (acceptJson "a.txt")) "sid" =
      ⟨⟨400, errJson "Missing or invalid file size"⟩, [], false⟩ := rfl

/-- C1 amended: for every valid transfer with a positive filesize (a
separator-free filename, a size within the maximum, and chunks whose
bytes total exactly the size), the receiver writes a file at the resolved
path holding exactly the payload and sends the `DONE` completion with
`bytes_received` equal to the size; and on the relay side `begin`
succeeds and creates the session, every sequential chunk call succeeds
forwarding exactly the payload, and `end` returns the `DONE` completion
with HTTP 200. -/
theorem C1_amended_valid_transfer (fs : FS) (fn : String) (size : Nat)
    (chunks : List (List Nat)) (sid saveName savePath : String) (renamed : Bool)
    (hpath : (savePath, renamed) = unique_save_path fs RECEIVE_DIR fn)
    (hname : saveName = basename savePath)
    (hsep : '/' ∉ fn.data) (hpos : 1 ≤ size) (hmax : (size : Int) ≤ MAX_FILE_SIZE_BYTES)
    (hlen : chunks.join.length = size) (hsid : sid ≠ "")
    (hdump : (dumpJson (headerJson fn (size : Int))).length < 2 ^ 64) :
    handle_client fs (send_json (headerJson fn (size : Int)) ++ chunks.join) =
      ⟨[acceptJson saveName, doneJson saveName (size : Int) renamed],
        fsWrite fs savePath chunks.join, true⟩ ∧
    fsGet (fsWrite fs savePath chunks.join) savePath = some chunks.join ∧
    ∃ sv s',
      handle_begin [] "127.0.0.1" "5001" fn (some (natRepr size))
          (.ok (acceptJson saveName)) sid =
        ⟨⟨200, .obj (.cons "status" (.str "OK") (.cons "session_id" (.str sid)
            (.cons "save_as" sv .nil)))⟩,
          sessSet [] sid ⟨(size : Int), 0, sv⟩, true⟩ ∧
      relaySendChunks (sessSet [] sid ⟨(size : Int), 0, sv⟩) sid chunks =
        (s', true, chunks.join) ∧
      handle_end s' sid (.ok (doneJson saveName (size : Int) renamed)) =
        ⟨⟨200, .obj (.cons "status" (.str "DONE")
            (.cons "saved_as" (.str saveName)
            (.cons "bytes_received" (.int (size : Int))
            (.cons "message" (.str "Received successfully")
            (.cons "renamed" (.bool renamed) .nil)))))⟩,
          sessPop s' sid, true⟩ := by
  have hsP : savePath = (unique_save_path fs RECEIVE_DIR fn).1 := by
    rw [← hpath]
  have hrN : renamed = (unique_save_path fs RECEIVE_DIR fn).2 := by
    rw [← hpath]
  subst hsP hrN hname
  have h0 : (0 : Int) ≤ (size : Int) := by omega
  have hacc := handle_client_accepted fs fn (size : Int) chunks.join hsep h0 hmax hdump
  have htn : ((size : Int)).toNat = size := by omega
  have hloop : recvLoop chunks.join ((size : Int)).toNat =
      ⟨chunks.join, true, []⟩ := by
    rw [htn, ← hlen]
    rw [recvLoop_enough chunks.join chunks.join.length (le_refl _)]
    simp
  rw [hloop] at hacc
  have hcond : (RecvResult.mk chunks.join true ([] : List Nat)).ok = true := rfl
  rw [if_pos hcond] at hacc
  rw [show (RecvResult.mk chunks.join true ([] : List Nat)).content = chunks.join from rfl,
    hlen] at hacc
  refine ⟨hacc, fsGet_fsWrite _ _ _, ?_⟩
  refine ⟨if jsonTruthy (.str (basename (unique_save_path fs RECEIVE_DIR fn).1)) then
    Json.str (basename (unique_save_path fs RECEIVE_DIR fn).1) else .str fn, ?_⟩
  have hsum : (chunks.map (fun c => ((c.length : Nat) : Int))).sum = (size : Int) := by
    rw [sum_int_lengths]
    omega
  obtain ⟨s', hs1, hs2⟩ := relaySendChunks_all_ok sid hsid chunks
    (sessSet [] sid ⟨(size : Int), 0,
      if jsonTruthy (.str (basename (unique_save_path fs RECEIVE_DIR fn).1)) then
        Json.str (basename (unique_save_path fs RECEIVE_DIR fn).1) else .str fn⟩)
    (size : Int) 0 _ (sessGet_sessSet _ _ _) (by rw [hsum]; omega)
  have hz : (0 : Int) + (chunks.map (fun c => ((c.length : Nat) : Int))).sum = (size : Int) := by
    rw [zero_add]
    exact hsum
  rw [hz] at hs2
  refine ⟨s', handle_begin_ok [] fn size hpos _ sid, hs1, ?_⟩
  exact handle_end_done s' sid hsid (size : Int) _ hs2
    (basename (unique_save_path fs RECEIVE_DIR fn).1) (unique_save_path fs RECEIVE_DIR fn).2

/-- Witness for the amended C1: a three-byte transfer in two chunks ends
with the payload on disk and DONE on both sides. -/
theorem C1_amended_valid_transfer_witness :
    handle_client [] (send_json (headerJson "a.txt" ((3 : Nat) : Int)) ++
        ([[104, 105], [33]] : List (List Nat)).join) =
      ⟨[acceptJson "a.txt", doneJson "a.txt" ((3 : Nat) : Int) false],
        fsWrite [] "received/a.txt" ([[104, 105], [33]] : List (List Nat)).join, true⟩ ∧
    fsGet (fsWrite [] "received/a.txt" ([[104, 105], [33]] : List (List Nat)).join)
        "received/a.txt" = some ([[104, 105], [33]] : List (List Nat)).join ∧
    ∃ sv s',
      handle_begin [] "127.0.0.1" "5001" "a.txt" (some (natRepr 3))
          (.ok (acceptJson "a.txt")) "s" =
        ⟨⟨200, .obj (.cons "status" (.str "OK") (.cons "session_id" (.str "s")
            (.cons "save_as" sv .nil)))⟩,
          sessSet [] "s" ⟨((3 : Nat) : Int), 0, sv⟩, true⟩ ∧
      relaySendChunks (sessSet [] "s" ⟨((3 : Nat) : Int), 0, sv⟩) "s" [[104, 105], [33]] =
        (s', true, ([[104, 105], [33]] : List (List Nat)).join) ∧
      handle_end s' "s" (.ok (doneJson "a.txt" ((3 : Nat) : Int) false)) =
        ⟨⟨200, .obj (.cons "status" (.str "DONE")
            (.cons "saved_as" (.str "a.txt")
            (.cons "bytes_received" (.int ((3 : Nat) : Int))
            (.cons "message" (.str "Received successfully")
            (.cons "renamed" (.bool false) .nil)))))⟩,
          sessPop s' "s", true⟩ :=
  C1_amended_valid_transfer [] "a.txt" 3 [[104, 105], [33]] "s" "a.txt" "received/a.txt"
    false rfl rfl (by decide) (by decide) (by decide) rfl (by decide) (by decide)
